import Mathlib

/-!
# A formal model of `stt.py`

This file gives a shallow embedding, in Lean 4, of the batch speech-to-text
command-line front end implemented in `src/stt.py`, and proves the testable
properties of its specification against that embedding.

Modelling conventions:

* Python strings are Lean `String`s; filesystem paths are their string forms.
* The filesystem state visible to the program (`Path.exists`, `Path.is_dir`,
  `glob.glob`) is passed explicitly: `FSState` records the sets of existing
  file and directory paths, `OSEnv` carries the working directory and the
  glob oracle.
* Python `float` seconds values are modelled as rationals (`ℚ`); the integer
  decompositions performed by `format_timestamp` (`//`, `%`, `int(...)`) are
  embedded exactly as floor division, sign-of-divisor remainder and
  truncation toward zero on `ℚ`.
* Fallible calls (the transcription collaborator, `Path.write_text`,
  `from_pretrained`) are modelled in the `Except String` monad: an uncaught
  Python exception is an `Except.error`.
* The unbounded `while True` loop of `get_unique_output_path` is embedded
  with an explicit fuel bounded by the (finite) filesystem; a lemma shows
  this fuel is always sufficient, so the model agrees with the source loop.
-/

namespace Stt

/-! ## Decimal rendering of integers (Python `str` / format specs) -/

/-- The character for a decimal digit `d < 10`. -/
def digitChar (d : ℕ) : Char := Char.ofNat (48 + d)

/-- Fuelled decimal rendering: digit list of `n` (most significant first). -/
def natStrAux : ℕ → ℕ → List Char
  | 0, _ => []
  | fuel + 1, n =>
    if n < 10 then [digitChar n]
    else natStrAux fuel (n / 10) ++ [digitChar (n % 10)]

/-- Decimal rendering of a natural number, as Python `str(n)` produces. -/
def natStr (n : ℕ) : String := ⟨natStrAux (n + 1) n⟩

/-- Left-to-right decimal evaluation of a digit string (used to prove that
`natStr` is injective, as the decimal notation is). -/
def decVal (cs : List Char) : ℕ := cs.foldl (fun a c => 10 * a + (c.toNat - 48)) 0

/-- Python `f"{n:0wd}"` for a nonnegative integer: pad with zeros to width `w`. -/
def padNat (w n : ℕ) : String :=
  ⟨List.replicate (w - (natStr n).length) '0'⟩ ++ natStr n

/-- Python `f"{x:0wd}"` for an arbitrary integer (the sign occupies one
column of the requested width). -/
def padInt (w : ℕ) (x : ℤ) : String :=
  if x < 0 then "-" ++ padNat (w - 1) x.natAbs else padNat w x.toNat

/-! ## Rational counterparts of the Python numeric operations -/

/-- Floor of a rational (`q.num / q.den` with Euclidean integer division,
which is what Python float floor-division `//` computes on these values). -/
def rfloor (q : ℚ) : ℤ := q.num / (q.den : ℤ)

/-- Truncation toward zero, which is what Python `int(x)` computes. -/
def rtrunc (q : ℚ) : ℤ := q.num.tdiv (q.den : ℤ)

/-- Python `a % b` on floats: `a - b * (a // b)` (sign of the divisor). -/
def pymod (a b : ℚ) : ℚ := a - b * rfloor (a / b)

/-! ## `format_timestamp` (src/stt.py lines 125–135) -/

/-- `hours = int(seconds // 3600)` (the value is already integral, so the
`int` conversion is the identity on it). -/
def ts_hours (seconds : ℚ) : ℤ := rfloor (seconds / 3600)

/-- `minutes = int((seconds % 3600) // 60)`. -/
def ts_minutes (seconds : ℚ) : ℤ := rfloor (pymod seconds 3600 / 60)

/-- `secs = int(seconds % 60)`. -/
def ts_secs (seconds : ℚ) : ℤ := rtrunc (pymod seconds 60)

/-- `millis = int((seconds % 1) * 1000)`. -/
def ts_millis (seconds : ℚ) : ℤ := rtrunc (pymod seconds 1 * 1000)

/-- `format_timestamp` from src/stt.py: `HH:MM:SS,mmm` for srt, and
`HH:MM:SS.mmm` for every other format string (the source's `else` branch). -/
def format_timestamp (seconds : ℚ) (fmt : String) : String :=
  if fmt = "srt" then
    padInt 2 (ts_hours seconds) ++ ":" ++ padInt 2 (ts_minutes seconds) ++ ":" ++
      padInt 2 (ts_secs seconds) ++ "," ++ padInt 3 (ts_millis seconds)
  else
    padInt 2 (ts_hours seconds) ++ ":" ++ padInt 2 (ts_minutes seconds) ++ ":" ++
      padInt 2 (ts_secs seconds) ++ "." ++ padInt 3 (ts_millis seconds)

/-! ## Transcript data model -/

/-- A timestamped sentence of a transcript (`s.text`, `s.start`, `s.end`). -/
structure Sentence where
  text : String
  start : ℚ
  end_ : ℚ
deriving DecidableEq, Repr

/-- The product of the transcription collaborator: full text plus sentences. -/
structure TranscriptResult where
  text : String
  sentences : List Sentence
deriving DecidableEq, Repr

/-- Python `sep.join(parts)`. -/
def joinSep (sep : String) : List String → String
  | [] => ""
  | [x] => x
  | x :: y :: rest => x ++ sep ++ joinSep sep (y :: rest)

/-! ## JSON serialization (the `json.dumps(..., indent=2, ensure_ascii=False)`
call in `format_output`) -/

/-- Lowercase hexadecimal digit character for `d < 16`. -/
def hexDigit (d : ℕ) : Char := if d < 10 then digitChar d else Char.ofNat (87 + d)

/-- The escaping `json.dumps` applies to one character when
`ensure_ascii=False`: quote, backslash and control characters are escaped,
everything else is emitted literally. -/
def escChar (c : Char) : List Char :=
  if c = '"' then ['\\', '"']
  else if c = '\\' then ['\\', '\\']
  else if c = '\n' then ['\\', 'n']
  else if c = '\r' then ['\\', 'r']
  else if c = '\t' then ['\\', 't']
  else if c.toNat = 8 then ['\\', 'b']
  else if c.toNat = 12 then ['\\', 'f']
  else if c.toNat < 32 then ['\\', 'u', '0', '0', hexDigit (c.toNat / 16), hexDigit (c.toNat % 16)]
  else [c]

/-- JSON string-body escaping of a whole string. -/
def escapeJson (s : String) : String := ⟨s.data.flatMap escChar⟩

/-- Least `k` with `d ∣ 10 ^ k`, when one exists (it does exactly when `d`
has no prime factors besides 2 and 5; `k ≤ d` always suffices then). -/
def decExp (d : ℕ) : Option ℕ := (List.range (d + 1)).find? (fun k => 10 ^ k % d = 0)

/-- `q` has a finite decimal representation (true of every value of a Python
float, whose denominator is a power of two). -/
def decimalRep (q : ℚ) : Bool := (decExp q.den).isSome

/-- Decimal rendering of the nonnegative rational `num / den`, given `k`
with `den ∣ 10 ^ k`: integer part, a dot, and `k` fractional digits.  This
models the `repr`-based float serialization of `json.dumps`, which always
emits a finite decimal with at least one fractional digit (`0.0`, `1.5`). -/
def renderQnn (num den k : ℕ) : String :=
  let scaled := num * 10 ^ k / den
  natStr (scaled / 10 ^ k) ++ "." ++
    (⟨List.replicate (max k 1 - (natStr (scaled % 10 ^ k)).length) '0'⟩ : String) ++
    natStr (scaled % 10 ^ k)

/-- Decimal rendering of a rational number as the float serializer does.
Values without a finite decimal form never arise from Python floats; the
fallback branch is unreachable in the modelled program. -/
def renderQ (q : ℚ) : String :=
  match decExp q.den with
  | some k => (if q < 0 then "-" else "") ++ renderQnn q.num.natAbs q.den k
  | none => "0"

/-- The serialized form of one sentence object inside the `sentences` array,
at its indentation level, exactly as `json.dumps(..., indent=2)` lays it
out. -/
def sentenceJson (s : Sentence) : String :=
  "    \x7b\n      \"text\": \"" ++ escapeJson s.text ++ "\",\n      \"start\": " ++
    renderQ s.start ++ ",\n      \"end\": " ++ renderQ s.end_ ++ "\n    \x7d"

/-- `json.dumps({"text": ..., "sentences": [...]}, indent=2,
ensure_ascii=False)` for the exact two-field object built in
`format_output` (src/stt.py lines 99–105). -/
def jsonDumpsResult (r : TranscriptResult) : String :=
  "\x7b\n  \"text\": \"" ++ escapeJson r.text ++ "\",\n  \"sentences\": " ++
    (if r.sentences.isEmpty then "[]"
     else "[\n" ++ joinSep ",\n" (r.sentences.map sentenceJson) ++ "\n  ]") ++
    "\n\x7d"

/-! ## `format_output` (src/stt.py lines 92–122) -/

/-- The block lines appended for each sentence by the srt/vtt loop
(`enumerate(result.sentences, 1)`): counter, time range, text, blank. -/
def srtBlocks (fmt : String) : ℕ → List Sentence → List String
  | _, [] => []
  | i, s :: rest =>
    natStr i ::
      (format_timestamp s.start fmt ++ " --> " ++ format_timestamp s.end_ fmt) ::
      s.text :: "" :: srtBlocks fmt (i + 1) rest

/-- `format_output` from src/stt.py: dispatch on the format string with a
fall-through to the full text for unrecognized values. -/
def format_output (result : TranscriptResult) (fmt : String) : String :=
  if fmt = "txt" then result.text
  else if fmt = "json" then jsonDumpsResult result
  else if fmt = "srt" ∨ fmt = "vtt" then
    joinSep "\n"
      ((if fmt = "vtt" then ["WEBVTT\n"] else []) ++ srtBlocks fmt 1 result.sentences)
  else result.text

/-! ## Path manipulation (the `pathlib` operations the source uses) -/

/-- Index of the last occurrence of `c` in `cs`, if any. -/
def rlastIdx (c : Char) (cs : List Char) : Option ℕ :=
  match List.indexOf? c cs.reverse with
  | some j => some (cs.length - 1 - j)
  | none => none

/-- `Path(p).name`: the final path component (everything after the last
slash). -/
def fileName (p : String) : String :=
  match rlastIdx '/' p.data with
  | none => p
  | some i => ⟨p.data.drop (i + 1)⟩

/-- `pathlib`'s split of a file name into stem and suffix: the suffix starts
at the last dot, provided that dot is neither the first nor the last
character of the name. -/
def stemAndSuffix (name : String) : String × String :=
  match rlastIdx '.' name.data with
  | some i =>
    if 0 < i ∧ i < name.data.length - 1 then (⟨name.data.take i⟩, ⟨name.data.drop i⟩)
    else (name, "")
  | none => (name, "")

/-- `Path(p).stem`. -/
def pathStem (p : String) : String := (stemAndSuffix (fileName p)).1

/-- `Path(p).suffix`. -/
def pathSuffix (p : String) : String := (stemAndSuffix (fileName p)).2

/-- `Path(p).parent` (for the slash-free case `pathlib` answers `.`). -/
def pathParent (p : String) : String :=
  match rlastIdx '/' p.data with
  | none => "."
  | some 0 => "/"
  | some i => ⟨p.data.take i⟩

/-- `Path(dir) / name` on already-normalized `dir` (no trailing slash). -/
def pathJoin (dir name : String) : String :=
  if dir = "/" then "/" ++ name
  else if dir = "." ∨ dir = "" then name
  else dir ++ "/" ++ name

/-- `p` is written in absolute form. -/
def isAbs (p : String) : Bool := p.data.head? = some '/'

/-! ## Filesystem and OS environment -/

/-- The filesystem facts the program consults: which paths exist as files
and which as directories. -/
structure FSState where
  files : List String
  dirs : List String
deriving Repr

/-- `Path(p).exists()`. -/
def pexists (fs : FSState) (p : String) : Bool := fs.files.contains p || fs.dirs.contains p

/-- `Path(p).is_dir()`. -/
def pIsDir (fs : FSState) (p : String) : Bool := fs.dirs.contains p

/-- The ambient process environment: current directory (for `Path.resolve`)
and the glob oracle (for `glob.glob`). -/
structure OSEnv where
  cwd : String
  globMatches : String → List String

/-- `Path(p).resolve()`, simplified to prefixing the working directory onto
relative paths (the source only relies on the result being absolute). -/
def pyResolve (cwd p : String) : String := if isAbs p then p else pathJoin cwd p

/-! ## `expand_paths` (src/stt.py lines 31–40) -/

/-- `any(c in pattern for c in "*?[")`. -/
def isGlobPattern (pattern : String) : Bool :=
  "*?[".data.any (fun c => pattern.data.contains c)

/-- String comparison as Python `sorted` uses it. -/
def strLe (a b : String) : Bool := a ≤ b

/-- `expand_paths` from src/stt.py: accumulate, per pattern in order, either
the lexicographically sorted and resolved glob matches or the single
resolved literal path. -/
def expand_paths (os : OSEnv) (patterns : List String) : List String :=
  patterns.foldl
    (fun paths pattern =>
      if isGlobPattern pattern then
        paths ++ ((os.globMatches pattern).mergeSort strLe).map (pyResolve os.cwd)
      else
        paths ++ [pyResolve os.cwd pattern])
    []

/-! ## `get_unique_output_path` (src/stt.py lines 43–57) -/

/-- The candidate `parent / f"{stem}-{counter}{suffix}"`. -/
def uniqCandidate (parent stem suffix : String) (n : ℕ) : String :=
  pathJoin parent (stem ++ "-" ++ natStr n ++ suffix)

/-- The `while True` suffix-search loop, with explicit fuel.  With fuel at
least the filesystem size plus one the fuel never runs out (a free
candidate is always reached first), so the base case is unreachable. -/
def uniqLoop (fs : FSState) (parent stem suffix : String) : ℕ → ℕ → String
  | 0, counter => uniqCandidate parent stem suffix counter
  | fuel + 1, counter =>
    let new_path := uniqCandidate parent stem suffix counter
    if pexists fs new_path then uniqLoop fs parent stem suffix fuel (counter + 1)
    else new_path

/-- `get_unique_output_path` from src/stt.py. -/
def get_unique_output_path (fs : FSState) (base_path : String) : String :=
  if pexists fs base_path then
    uniqLoop fs (pathParent base_path) (pathStem base_path) (pathSuffix base_path)
      (fs.files.length + fs.dirs.length + 1) 1
  else base_path

/-! ## `get_output_path` (src/stt.py lines 60–71) -/

/-- The format→extension table `EXTENSION_MAP`. -/
def EXTENSION_MAP : List (String × String) :=
  [("txt", ".txt"), ("srt", ".srt"), ("vtt", ".vtt"), ("json", ".json")]

/-- Python truthiness of the optional `output` argument (`None` and the
empty string are falsy). -/
def truthy : Option String → Bool
  | none => false
  | some s => s ≠ ""

/-- `get_output_path` from src/stt.py. -/
def get_output_path (fs : FSState) (input_path : String) (output : Option String)
    (fmt : String) : String :=
  let ext := (EXTENSION_MAP.lookup fmt).getD ".txt"
  let output_path :=
    if truthy output then
      let o := output.getD ""
      if pIsDir fs o then pathJoin o (pathStem input_path ++ ext) else o
    else pathJoin (pathParent input_path) (pathStem input_path ++ ext)
  get_unique_output_path fs output_path

/-! ## The batch runner (`transcribe` and `main`, src/stt.py lines 74–198) -/

/-- The whole mutable world the run touches: the filesystem, the
collaborator's behaviour (`model.transcribe`), the write-failure behaviour
of `Path.write_text`, the OS environment, and the model-loading behaviour
of `from_pretrained` / `try_to_load_from_cache`. -/
structure World where
  fs : FSState
  written : List (String × String)
  transcribeFn : String → Except String TranscriptResult
  writeError : String → Option String
  os : OSEnv
  loadError : Option String
  modelCached : Bool

/-- `output_path.write_text(content)`: record the file as existing and
remember what was written to it. -/
def writeText (w : World) (p content : String) : World :=
  { w with
    fs := { w.fs with files := if w.fs.files.contains p then w.fs.files else w.fs.files ++ [p] }
    written := w.written ++ [(p, content)] }

/-- What one per-item step produces: the updated world, the boolean success
flag, and the lines printed to stdout and stderr. -/
structure StepOut where
  world : World
  ok : Bool
  stdout : List String
  stderr : List String

def MODEL_ID : String := "mlx-community/parakeet-tdt-0.6b-v3"

/-- `transcribe` from src/stt.py.  Only the block up to and including
`model.transcribe` is inside `try`; an exception there is caught and turned
into the `False` return value, while an exception from `write_text`
propagates as `Except.error`. -/
def transcribe (w : World) (input_path output_path : String) (fmt : String)
    (quiet : Bool) : Except String StepOut :=
  let procLine := if quiet then [] else ["Processing " ++ fileName input_path ++ "..."]
  match w.transcribeFn input_path with
  | .error e =>
    .ok { world := w, ok := false, stdout := [],
          stderr := procLine ++
            (if quiet then []
             else ["Error: Transcription failed for " ++ fileName input_path ++ ": " ++ e]) }
  | .ok result =>
    let content := format_output result fmt
    match w.writeError output_path with
    | some e => .error e
    | none =>
      .ok { world := writeText w output_path content, ok := true,
            stdout := [output_path], stderr := procLine }

/-- The per-input loop of `main` (src/stt.py lines 192–196), including the
aggregation of the `success` flag. -/
def processAll : World → List String → Option String → String → Bool → Except String StepOut
  | w, [], _, _, _ => .ok { world := w, ok := true, stdout := [], stderr := [] }
  | w, input_path :: rest, output, fmt, quiet =>
    let output_path := get_output_path w.fs input_path output fmt
    match transcribe w input_path output_path fmt quiet with
    | .error e => .error e
    | .ok step =>
      match processAll step.world rest output fmt quiet with
      | .error e => .error e
      | .ok restOut =>
        .ok { world := restOut.world, ok := step.ok && restOut.ok,
              stdout := step.stdout ++ restOut.stdout,
              stderr := step.stderr ++ restOut.stderr }

/-- The observable outcome of a run of `main`: the `sys.exit` code, the
final world, and the two output channels. -/
structure RunOutcome where
  exitCode : ℕ
  world : World
  stdout : List String
  stderr : List String

/-- `main` from src/stt.py, after argument parsing: input expansion, the
empty/missing/multiplicity validations, model loading, the batch loop, and
the final exit status. -/
def runMain (w : World) (inputs : List String) (output : Option String) (fmt : String)
    (quiet : Bool) : Except String RunOutcome :=
  let input_paths := expand_paths w.os inputs
  if input_paths.isEmpty then
    .ok ⟨1, w, [], if quiet then [] else ["Error: No matching files found"]⟩
  else
    let missing := input_paths.filter (fun p => !pexists w.fs p)
    if !missing.isEmpty then
      .ok ⟨1, w, [],
        if quiet then [] else missing.map (fun p => "Error: Input file not found: " ++ p)⟩
    else if input_paths.length > 1 && truthy output && !pIsDir w.fs (output.getD "") then
      .ok ⟨1, w, [],
        if quiet then [] else ["Error: Output must be a directory when processing multiple files"]⟩
    else
      let dlNote :=
        if !quiet && !w.modelCached then
          ["Model not found locally. Downloading " ++ MODEL_ID ++ "..."]
        else []
      match w.loadError with
      | some e => .error e
      | none =>
        match processAll w input_paths output fmt quiet with
        | .error e => .error e
        | .ok out => .ok ⟨if out.ok then 0 else 1, out.world, out.stdout, dlNote ++ out.stderr⟩

/-! ## A JSON value model and a parser modelling `json.loads`

The round-trip property of the `json` output format is settled against a
recursive-descent JSON parser embedded here (strings with escapes,
numbers, arrays, objects, literals, interspersed whitespace), standing in
for Python's `json.loads`; the parser accepts general JSON input, not just
the serializer's output.  Recursion into nested values is fuelled; the
fuel `length + 1` supplied by `loads` is proved sufficient. -/

/-- A parsed JSON value. -/
inductive JVal where
  | jnull : JVal
  | jbool : Bool → JVal
  | jnum : ℚ → JVal
  | jstr : String → JVal
  | jarr : List JVal → JVal
  | jobj : List (String × JVal) → JVal

/-- JSON whitespace. -/
def isWsChar (c : Char) : Bool := c = ' ' ∨ c = '\n' ∨ c = '\t' ∨ c = '\r'

/-- Drop leading JSON whitespace. -/
def skipWs : List Char → List Char
  | [] => []
  | c :: rest => if isWsChar c then skipWs rest else c :: rest

/-- Value of one hexadecimal digit character. -/
def hexVal (c : Char) : Option ℕ :=
  if '0' ≤ c ∧ c ≤ '9' then some (c.toNat - 48)
  else if 'a' ≤ c ∧ c ≤ 'f' then some (c.toNat - 87)
  else if 'A' ≤ c ∧ c ≤ 'F' then some (c.toNat - 55)
  else none

/-- Parse the body of a JSON string (the opening quote already consumed):
decode escape sequences, stop at the closing quote, reject raw control
characters and malformed escapes. -/
def pstr : List Char → Option (List Char × List Char)
  | [] => none
  | c :: rest =>
    if c = '"' then some ([], rest)
    else if c = '\\' then
      match rest with
      | [] => none
      | e :: r =>
        if e = '"' then (pstr r).map (fun x => ('"' :: x.1, x.2))
        else if e = '\\' then (pstr r).map (fun x => ('\\' :: x.1, x.2))
        else if e = '/' then (pstr r).map (fun x => ('/' :: x.1, x.2))
        else if e = 'n' then (pstr r).map (fun x => ('\n' :: x.1, x.2))
        else if e = 'r' then (pstr r).map (fun x => ('\r' :: x.1, x.2))
        else if e = 't' then (pstr r).map (fun x => ('\t' :: x.1, x.2))
        else if e = 'b' then (pstr r).map (fun x => (Char.ofNat 8 :: x.1, x.2))
        else if e = 'f' then (pstr r).map (fun x => (Char.ofNat 12 :: x.1, x.2))
        else if e = 'u' then
          match r with
          | a :: b :: c2 :: d :: r2 =>
            match hexVal a, hexVal b, hexVal c2, hexVal d with
            | some x1, some x2, some x3, some x4 =>
              (pstr r2).map
                (fun x => (Char.ofNat (4096 * x1 + 256 * x2 + 16 * x3 + x4) :: x.1, x.2))
            | _, _, _, _ => none
          | _ => none
        else none
    else if c.toNat < 32 then none
    else (pstr rest).map (fun x => (c :: x.1, x.2))

/-- Consume a maximal run of decimal digits, accumulating their value and
count. -/
def takeDigits : List Char → ℕ → ℕ → ℕ × ℕ × List Char
  | [], acc, cnt => (acc, cnt, [])
  | c :: rest, acc, cnt =>
    if c.isDigit then takeDigits rest (10 * acc + (c.toNat - 48)) (cnt + 1)
    else (acc, cnt, c :: rest)

/-- Parse an optional fractional part after the integer part `ip`. -/
def pfrac (ip : ℚ) (cs : List Char) : Option (ℚ × List Char) :=
  match cs with
  | [] => some (ip, [])
  | c :: rest =>
    if c = '.' then
      match rest with
      | [] => none
      | d :: _ =>
        if d.isDigit then
          match takeDigits rest 0 0 with
          | (fp, fc, rest2) => some (ip + (fp : ℚ) / 10 ^ fc, rest2)
        else none
    else some (ip, c :: rest)

/-- The digits of an exponent, applied to the mantissa `v`. -/
def pexpoDigits (v : ℚ) (negExp : Bool) (cs : List Char) : Option (ℚ × List Char) :=
  match cs with
  | [] => none
  | d :: _ =>
    if d.isDigit then
      match takeDigits cs 0 0 with
      | (ev, _, rest2) => some (if negExp then v / 10 ^ ev else v * 10 ^ ev, rest2)
    else none

/-- Parse an optional exponent part after the mantissa `v`. -/
def pexpo (v : ℚ) (cs : List Char) : Option (ℚ × List Char) :=
  match cs with
  | [] => some (v, [])
  | c :: rest =>
    if c = 'e' ∨ c = 'E' then
      match rest with
      | [] => none
      | s :: rest2 =>
        if s = '+' then pexpoDigits v false rest2
        else if s = '-' then pexpoDigits v true rest2
        else pexpoDigits v false rest
    else some (v, c :: rest)

/-- Parse the unsigned part of a JSON number, applying the already-seen
sign at the end. -/
def pnumCore (neg : Bool) (cs1 : List Char) : Option (ℚ × List Char) :=
  match cs1 with
  | [] => none
  | c :: _ =>
    if c.isDigit then
      match takeDigits cs1 0 0 with
      | (ip, _, cs2) =>
        match pfrac (ip : ℚ) cs2 with
        | some (v, cs3) =>
          match pexpo v cs3 with
          | some (v2, cs4) => some (if neg then -v2 else v2, cs4)
          | none => none
        | none => none
    else none

/-- Parse a JSON number. -/
def pnum (cs : List Char) : Option (ℚ × List Char) :=
  match cs with
  | [] => none
  | c :: r => if c = '-' then pnumCore true r else pnumCore false (c :: r)

/-- The three parsing modes of the recursive descent: a value, the
elements of a (nonempty) array, the fields of a (nonempty) object. -/
inductive PMode where
  | value : PMode
  | elems : PMode
  | fields : PMode

/-- The result of one `parseCore` call, per mode. -/
inductive PRes where
  | v : JVal → PRes
  | vs : List JVal → PRes
  | flds : List (String × JVal) → PRes

/-- The recursive-descent core.  The fuel bounds the recursion into nested
values and along container items; every other consumption is structural
on the input. -/
def parseCore : ℕ → PMode → List Char → Option (PRes × List Char)
  | 0, _, _ => none
  | fuel + 1, PMode.value, cs =>
    match skipWs cs with
    | [] => none
    | c :: rest =>
      if c = '"' then (pstr rest).map (fun x => (PRes.v (JVal.jstr ⟨x.1⟩), x.2))
      else if c = '{' then
        match skipWs rest with
        | [] => none
        | c2 :: r2 =>
          if c2 = '}' then some (PRes.v (JVal.jobj []), r2)
          else
            match parseCore fuel PMode.fields rest with
            | some (PRes.flds fl, r3) => some (PRes.v (JVal.jobj fl), r3)
            | _ => none
      else if c = '[' then
        match skipWs rest with
        | [] => none
        | c2 :: r2 =>
          if c2 = ']' then some (PRes.v (JVal.jarr []), r2)
          else
            match parseCore fuel PMode.elems rest with
            | some (PRes.vs xs, r3) => some (PRes.v (JVal.jarr xs), r3)
            | _ => none
      else if c = 't' then
        match rest with
        | 'r' :: 'u' :: 'e' :: r2 => some (PRes.v (JVal.jbool true), r2)
        | _ => none
      else if c = 'f' then
        match rest with
        | 'a' :: 'l' :: 's' :: 'e' :: r2 => some (PRes.v (JVal.jbool false), r2)
        | _ => none
      else if c = 'n' then
        match rest with
        | 'u' :: 'l' :: 'l' :: r2 => some (PRes.v JVal.jnull, r2)
        | _ => none
      else (pnum (c :: rest)).map (fun x => (PRes.v (JVal.jnum x.1), x.2))
  | fuel + 1, PMode.elems, cs =>
    match parseCore fuel PMode.value cs with
    | some (PRes.v x, r) =>
      (match skipWs r with
       | [] => none
       | c2 :: r2 =>
         if c2 = ',' then
           match parseCore fuel PMode.elems r2 with
           | some (PRes.vs xs, r3) => some (PRes.vs (x :: xs), r3)
           | _ => none
         else if c2 = ']' then some (PRes.vs [x], r2)
         else none)
    | _ => none
  | fuel + 1, PMode.fields, cs =>
    match skipWs cs with
    | [] => none
    | c :: rest =>
      if c = '"' then
        match pstr rest with
        | some (k, r) =>
          (match skipWs r with
           | [] => none
           | c2 :: r2 =>
             if c2 = ':' then
               match parseCore fuel PMode.value r2 with
               | some (PRes.v x, r3) =>
                 (match skipWs r3 with
                  | [] => none
                  | c3 :: r4 =>
                    if c3 = ',' then
                      match parseCore fuel PMode.fields r4 with
                      | some (PRes.flds xs, r5) => some (PRes.flds ((⟨k⟩, x) :: xs), r5)
                      | _ => none
                    else if c3 = '}' then some (PRes.flds [(⟨k⟩, x)], r4)
                    else none)
               | _ => none
             else none)
        | none => none
      else none

/-- `json.loads`: parse one value, allow surrounding whitespace, reject
trailing garbage. -/
def loads (s : String) : Option JVal :=
  match parseCore (s.length + 1) PMode.value s.data with
  | some (PRes.v x, rest) => if skipWs rest = [] then some x else none
  | _ => none

/-- The JSON value of one sentence as serialized by `format_output`. -/
def sentJ (s : Sentence) : JVal :=
  JVal.jobj [("text", JVal.jstr s.text), ("start", JVal.jnum s.start),
    ("end", JVal.jnum s.end_)]

/-- The JSON value of a whole `TranscriptResult` as serialized by
`format_output`: exactly two top-level fields, `text` then `sentences`. -/
def resultJ (r : TranscriptResult) : JVal :=
  JVal.jobj [("text", JVal.jstr r.text),
    ("sentences", JVal.jarr (r.sentences.map sentJ))]

/-- What one pattern contributes to the expansion (the body of the loop in
`expand_paths`). -/
def patternContribution (os : OSEnv) (pattern : String) : List String :=
  if isGlobPattern pattern then
    ((os.globMatches pattern).mergeSort strLe).map (pyResolve os.cwd)
  else [pyResolve os.cwd pattern]

/-- The per-item success test: does the collaborator succeed on this
input? -/
def transcribeOk (w : World) (p : String) : Bool :=
  match w.transcribeFn p with
  | .ok _ => true
  | .error _ => false

/-- A concrete world for the C2 witness: three existing inputs of which
only the second makes the collaborator fail. -/
def wC2 : World :=
  { fs := ⟨["/a/x.mp3", "/a/y.mp3", "/a/z.mp3"], []⟩
    written := []
    transcribeFn := fun p =>
      if p = "/a/y.mp3" then .error "boom" else .ok ⟨"hi", []⟩
    writeError := fun _ => none
    os := ⟨"/", fun _ => []⟩
    loadError := none
    modelCached := true }

/-- A concrete world for the C9 witness: both inputs exist and transcribe
fine, but the first item's output target is not writable. -/
def wC9 : World :=
  { fs := ⟨["/a/x.mp3", "/a/y.mp3"], []⟩
    written := []
    transcribeFn := fun _ => .ok ⟨"hi", []⟩
    writeError := fun p => if p = "/a/x.txt" then some "disk full" else none
    os := ⟨"/", fun _ => []⟩
    loadError := none
    modelCached := true }

/-! ## Lemmas about decimal rendering -/

lemma digitChar_toNat {d : ℕ} (hd : d < 10) : (digitChar d).toNat = 48 + d := by
  interval_cases d <;> decide

lemma decVal_append (xs ys : List Char) :
    decVal (xs ++ ys) = ys.foldl (fun a c => 10 * a + (c.toNat - 48)) (decVal xs) := by
  simp [decVal, List.foldl_append]

lemma decVal_natStrAux : ∀ fuel n, n < fuel → decVal (natStrAux fuel n) = n := by
  intro fuel
  induction fuel with
  | zero => intro n h; omega
  | succ f ih =>
    intro n h
    by_cases h10 : n < 10
    · simp [natStrAux, h10, decVal, digitChar_toNat h10]
    · have hdiv : n / 10 < f := by
        have := Nat.div_lt_self (show 0 < n by omega) (show 1 < 10 by omega)
        omega
      have hmod : n % 10 < 10 := Nat.mod_lt _ (by omega)
      simp only [natStrAux, if_neg h10, decVal_append, ih _ hdiv, List.foldl,
        digitChar_toNat hmod]
      omega

lemma natStr_injective : Function.Injective natStr := by
  intro m n h
  have h2 := congrArg (fun s => decVal s.data) h
  simpa [natStr, decVal_natStrAux _ _ (Nat.lt_succ_self m),
    decVal_natStrAux _ _ (Nat.lt_succ_self n)] using h2

/-! ## Lemmas about the rational operations -/

lemma rfloor_eq (q : ℚ) : rfloor q = ⌊q⌋ := Rat.floor_def.symm

lemma rtrunc_eq_floor {q : ℚ} (h : 0 ≤ q) : rtrunc q = ⌊q⌋ := by
  have hnum : 0 ≤ q.num := Rat.num_nonneg.mpr h
  rw [rtrunc, Int.tdiv_eq_ediv hnum (by positivity), Rat.floor_def]

lemma pymod_eq_fract_mul {a b : ℚ} (hb : b ≠ 0) : pymod a b = b * Int.fract (a / b) := by
  rw [pymod, rfloor_eq, ← Int.self_sub_floor, mul_sub, mul_div_cancel₀ a hb]

lemma pymod_nonneg {b : ℚ} (hb : 0 < b) (a : ℚ) : 0 ≤ pymod a b := by
  rw [pymod_eq_fract_mul hb.ne']
  exact mul_nonneg hb.le (Int.fract_nonneg _)

/-! ## C4: `format_timestamp` decomposition and timestamp laws -/

lemma ts_hours_eq (q : ℚ) : ts_hours q = ⌊q / 3600⌋ := rfloor_eq _

lemma ts_minutes_eq (q : ℚ) : ts_minutes q = ⌊(q - 3600 * ⌊q / 3600⌋) / 60⌋ := by
  rw [ts_minutes, rfloor_eq, pymod, rfloor_eq]

lemma ts_secs_eq (q : ℚ) : ts_secs q = ⌊q - 60 * ⌊q / 60⌋⌋ := by
  rw [ts_secs, rtrunc_eq_floor (pymod_nonneg (by norm_num) q), pymod, rfloor_eq]

lemma ts_millis_eq (q : ℚ) : ts_millis q = ⌊(q - ⌊q⌋) * 1000⌋ := by
  rw [ts_millis,
    rtrunc_eq_floor (mul_nonneg (pymod_nonneg one_pos q) (by norm_num)),
    pymod, rfloor_eq, div_one, one_mul]

/-- Package of the four component values of a timestamp, with each floor
discharged by `norm_num` at concrete inputs. -/
lemma ts_vals (q : ℚ) (a b c d : ℤ) (h1 : ⌊q / 3600⌋ = a)
    (h2 : ⌊(q - 3600 * a) / 60⌋ = b) (h3 : ⌊q - 60 * ⌊q / 60⌋⌋ = c)
    (h4 : ⌊(q - ⌊q⌋) * 1000⌋ = d) :
    ts_hours q = a ∧ ts_minutes q = b ∧ ts_secs q = c ∧ ts_millis q = d := by
  refine ⟨?_, ?_, ?_, ?_⟩
  · rw [ts_hours_eq, h1]
  · rw [ts_minutes_eq, h1, h2]
  · rw [ts_secs_eq, h3]
  · rw [ts_millis_eq, h4]

/-- C4: `format_timestamp` decomposes a seconds value as hours =
floor(seconds/3600), minutes = floor((seconds mod 3600)/60), secs =
floor(seconds mod 60), millis = floor((seconds mod 1)·1000), rendered
zero-padded as `HH:MM:SS,mmm` for srt and `HH:MM:SS.mmm` for vtt; in
particular `format_timestamp 3725.4321 "srt" = "01:02:05,432"` and
`format_timestamp 3725.4321 "vtt" = "01:02:05.432"`. -/
theorem format_timestamp_spec :
    (∀ q : ℚ,
      ts_hours q = ⌊q / 3600⌋ ∧
      ts_minutes q = ⌊(q - 3600 * ⌊q / 3600⌋) / 60⌋ ∧
      ts_secs q = ⌊q - 60 * ⌊q / 60⌋⌋ ∧
      ts_millis q = ⌊(q - ⌊q⌋) * 1000⌋) ∧
    format_timestamp (37254321 / 10000 : ℚ) "srt" = "01:02:05,432" ∧
    format_timestamp (37254321 / 10000 : ℚ) "vtt" = "01:02:05.432" := by
  obtain ⟨a1, a2, a3, a4⟩ :=
    ts_vals (37254321 / 10000 : ℚ) 1 2 5 432 (by norm_num) (by norm_num) (by norm_num)
      (by norm_num)
  refine ⟨fun q => ⟨ts_hours_eq q, ts_minutes_eq q, ts_secs_eq q, ts_millis_eq q⟩, ?_, ?_⟩ <;>
  · simp only [format_timestamp, a1, a2, a3, a4]
    decide

/-! ## C1: the srt scenario -/

lemma fts_srt_0 : format_timestamp 0 "srt" = "00:00:00,000" := by
  obtain ⟨a1, a2, a3, a4⟩ :=
    ts_vals 0 0 0 0 0 (by norm_num) (by norm_num) (by norm_num) (by norm_num)
  simp only [format_timestamp, a1, a2, a3, a4]
  decide

lemma fts_srt_3_2 : format_timestamp (3 / 2) "srt" = "00:00:01,500" := by
  obtain ⟨a1, a2, a3, a4⟩ :=
    ts_vals (3 / 2) 0 0 1 500 (by norm_num) (by norm_num) (by norm_num) (by norm_num)
  simp only [format_timestamp, a1, a2, a3, a4]
  decide

lemma fts_srt_3 : format_timestamp 3 "srt" = "00:00:03,000" := by
  obtain ⟨a1, a2, a3, a4⟩ :=
    ts_vals 3 0 0 3 0 (by norm_num) (by norm_num) (by norm_num) (by norm_num)
  simp only [format_timestamp, a1, a2, a3, a4]
  decide

/-- C1, counterexample: on the two-sentence scenario the claimed output
string (ending in a double newline `...World\n\n`) is not what
`format_output` returns: `"\n".join` places no newline after the final
(empty) element, so the output ends in a single newline. -/
theorem srt_scenario_claimed_output_is_wrong :
    format_output ⟨"Hello World", [⟨"Hello", 0, 3 / 2⟩, ⟨"World", 3 / 2, 3⟩]⟩ "srt" ≠
      "1\n00:00:00,000 --> 00:00:01,500\nHello\n\n2\n00:00:01,500 --> 00:00:03,000\nWorld\n\n" := by
  simp only [format_output, srtBlocks, fts_srt_0, fts_srt_3_2, fts_srt_3]
  decide

/-- C1, amended: each block contributes four lines (counter, time range,
text, blank line) and the blocks are joined with newline separators, so the
output ends with a single newline after the last block's text — the final
blank line is the empty last element and carries no further newline. -/
theorem srt_scenario_output :
    format_output ⟨"Hello World", [⟨"Hello", 0, 3 / 2⟩, ⟨"World", 3 / 2, 3⟩]⟩ "srt" =
      "1\n00:00:00,000 --> 00:00:01,500\nHello\n\n2\n00:00:01,500 --> 00:00:03,000\nWorld\n" := by
  simp only [format_output, srtBlocks, fts_srt_0, fts_srt_3_2, fts_srt_3]
  decide

/-! ## C8: unrecognized format values fall back to `.txt` behaviour -/

/-- C8: for every format value outside {txt, srt, vtt, json},
`format_output` returns the full-text field verbatim, the extension lookup
of `get_output_path` falls back to `.txt`, and the computed output path is
the `.txt` sibling (then uniquified): the unrecognized value never causes
an error. -/
theorem unknown_format_fallback :
    ∀ fmt : String, fmt ∉ (["txt", "srt", "vtt", "json"] : List String) →
      (∀ r : TranscriptResult, format_output r fmt = r.text) ∧
      (EXTENSION_MAP.lookup fmt).getD ".txt" = ".txt" ∧
      (∀ (fs : FSState) (input_path : String),
        get_output_path fs input_path none fmt =
          get_unique_output_path fs
            (pathJoin (pathParent input_path) (pathStem input_path ++ ".txt"))) := by
  intro fmt h
  have h1 : fmt ≠ "txt" := fun e => h (by rw [e]; decide)
  have h2 : fmt ≠ "srt" := fun e => h (by rw [e]; decide)
  have h3 : fmt ≠ "vtt" := fun e => h (by rw [e]; decide)
  have h4 : fmt ≠ "json" := fun e => h (by rw [e]; decide)
  have b1 : (fmt == "txt") = false := by simp [h1]
  have b2 : (fmt == "srt") = false := by simp [h2]
  have b3 : (fmt == "vtt") = false := by simp [h3]
  have b4 : (fmt == "json") = false := by simp [h4]
  have hlook : (EXTENSION_MAP.lookup fmt).getD ".txt" = ".txt" := by
    simp [EXTENSION_MAP, List.lookup, b1, b2, b3, b4]
  refine ⟨?_, hlook, ?_⟩
  · intro r
    simp [format_output, h1, h2, h3, h4]
  · intro fs input_path
    simp only [get_output_path, truthy, Bool.false_eq_true, if_false, hlook]

/-- C8 witness: the unrecognized value `"xml"`. -/
theorem unknown_format_fallback_witness :
    "xml" ∉ (["txt", "srt", "vtt", "json"] : List String) ∧
    format_output ⟨"full text", []⟩ "xml" = "full text" ∧
    (EXTENSION_MAP.lookup "xml").getD ".txt" = ".txt" :=
  ⟨by decide, (unknown_format_fallback "xml" (by decide)).1 _,
    (unknown_format_fallback "xml" (by decide)).2.1⟩

/-! ## C10: glob classification -/

/-- C10: an input is classified as a glob pattern iff its string contains
one of `*`, `?`, `[`; consequently a literal path containing `[` is
treated as a glob, and when the glob matches nothing it contributes zero
entries — the existing file is never resolved as a literal path. -/
theorem glob_classification :
    (∀ p : String,
      isGlobPattern p = true ↔ ('*' ∈ p.data ∨ '?' ∈ p.data ∨ '[' ∈ p.data)) ∧
    (∀ (os : OSEnv) (p : String), isGlobPattern p = true → os.globMatches p = [] →
      expand_paths os [p] = []) := by
  constructor
  · intro p
    simp [isGlobPattern, List.contains, List.elem_iff]
  · intro os p hg hm
    simp [expand_paths, hg, hm, List.mergeSort_nil]

/-- C10 witness: `/data/x[1].mp3` contains `[`, is classified as a glob
even though a file by that exact name exists, and with no glob matches it
contributes zero entries. -/
theorem glob_classification_witness :
    isGlobPattern "/data/x[1].mp3" = true ∧
    pexists ⟨["/data/x[1].mp3"], []⟩ "/data/x[1].mp3" = true ∧
    expand_paths ⟨"/", fun _ => []⟩ ["/data/x[1].mp3"] = [] :=
  ⟨by decide, by decide,
    glob_classification.2 ⟨"/", fun _ => []⟩ "/data/x[1].mp3" (by decide) rfl⟩

/-! ## C5: `expand_paths` -/

lemma expand_paths_aux (os : OSEnv) :
    ∀ (patterns : List String) (acc : List String),
      patterns.foldl
        (fun paths pattern =>
          if isGlobPattern pattern then
            paths ++ ((os.globMatches pattern).mergeSort strLe).map (pyResolve os.cwd)
          else paths ++ [pyResolve os.cwd pattern]) acc =
        acc ++ patterns.flatMap (patternContribution os) := by
  intro patterns
  induction patterns with
  | nil => intro acc; simp
  | cons p ps ih =>
    intro acc
    have hstep :
        (if isGlobPattern p then
            acc ++ ((os.globMatches p).mergeSort strLe).map (pyResolve os.cwd)
          else acc ++ [pyResolve os.cwd p]) = acc ++ patternContribution os p := by
      by_cases hg : isGlobPattern p <;> simp [patternContribution, hg]
    simp only [List.foldl_cons, hstep, ih, List.flatMap_cons, List.append_assoc]

lemma expand_paths_eq (os : OSEnv) (patterns : List String) :
    expand_paths os patterns = patterns.flatMap (patternContribution os) := by
  rw [expand_paths, expand_paths_aux]
  simp

lemma isAbs_append (a b : String) (h : isAbs a = true) : isAbs (a ++ b) = true := by
  simp only [isAbs, decide_eq_true_eq, String.data_append] at h ⊢
  cases hcases : a.data with
  | nil => rw [hcases] at h; simp at h
  | cons c t =>
    rw [hcases] at h
    simp only [List.cons_append, List.head?_cons]
    simpa using h

lemma isAbs_pyResolve {cwd : String} (h : isAbs cwd = true) (p : String) :
    isAbs (pyResolve cwd p) = true := by
  rw [pyResolve]
  by_cases hp : isAbs p = true
  · rw [if_pos hp]; exact hp
  · rw [if_neg hp, pathJoin]
    by_cases hroot : cwd = "/"
    · rw [if_pos hroot]; exact isAbs_append "/" p (by decide)
    · rw [if_neg hroot]
      by_cases hdot : cwd = "." ∨ cwd = ""
      · exfalso
        rcases hdot with rfl | rfl <;> simp [isAbs] at h
      · rw [if_neg hdot]
        exact isAbs_append _ _ (isAbs_append _ _ h)

/-- C5: `expand_paths` processes patterns in order and concatenates their
contributions without cross-pattern de-duplication or re-sorting; a
non-glob pattern contributes exactly its one resolved (absolute) path with
no filesystem access; a glob pattern contributes its matches sorted
lexicographically by string form (then resolved); an empty glob
contributes zero entries without error. -/
theorem expand_paths_spec :
    ∀ (os : OSEnv) (patterns : List String),
      expand_paths os patterns = patterns.flatMap (patternContribution os) ∧
      (∀ pattern, isGlobPattern pattern = false →
        patternContribution os pattern = [pyResolve os.cwd pattern]) ∧
      (isAbs os.cwd = true →
        ∀ pattern, ∀ q ∈ patternContribution os pattern, isAbs q = true) ∧
      (∀ pattern, isGlobPattern pattern = true →
        ∃ ms : List String, ms.Perm (os.globMatches pattern) ∧
          List.Sorted (· ≤ ·) ms ∧
          patternContribution os pattern = ms.map (pyResolve os.cwd)) ∧
      (∀ pattern, isGlobPattern pattern = true → os.globMatches pattern = [] →
        patternContribution os pattern = []) ∧
      (∀ os' : OSEnv, os'.cwd = os.cwd →
        (∀ p, isGlobPattern p = true → os'.globMatches p = os.globMatches p) →
        expand_paths os' patterns = expand_paths os patterns) := by
  intro os patterns
  refine ⟨expand_paths_eq os patterns, ?_, ?_, ?_, ?_, ?_⟩
  · intro pattern hg
    simp [patternContribution, hg]
  · intro hcwd pattern q hq
    by_cases hg : isGlobPattern pattern = true
    · rw [patternContribution, if_pos hg] at hq
      obtain ⟨x, _, rfl⟩ := List.mem_map.mp hq
      exact isAbs_pyResolve hcwd x
    · rw [patternContribution, if_neg hg] at hq
      rcases List.mem_singleton.mp hq with rfl
      exact isAbs_pyResolve hcwd pattern
  · intro pattern hg
    refine ⟨(os.globMatches pattern).mergeSort strLe, List.mergeSort_perm _ _, ?_, ?_⟩
    · have hs := @List.sorted_mergeSort _ strLe
        (fun a b c hab hbc => by
          simp only [strLe, decide_eq_true_eq] at *
          exact le_trans hab hbc)
        (fun a b => by simpa [strLe] using le_total a b)
        (os.globMatches pattern)
      exact hs.imp (fun h => by simpa [strLe] using h)
    · rw [patternContribution, if_pos hg]
  · intro pattern hg hm
    simp [patternContribution, hg, hm, List.mergeSort_nil]
  · intro os' hcwd hglob
    rw [expand_paths_eq, expand_paths_eq]
    have : ∀ p ∈ patterns, patternContribution os' p = patternContribution os p := by
      intro p _
      by_cases hg : isGlobPattern p = true
      · simp [patternContribution, hg, hglob p hg, hcwd]
      · simp [patternContribution, hg, hcwd]
    simp only [List.flatMap]
    rw [List.map_congr_left this]

/-- C5 witness: a literal (non-glob) pattern resolved against an absolute
working directory contributes exactly its one absolute resolved path. -/
theorem expand_paths_spec_witness :
    isGlobPattern "lit.mp3" = false ∧ isAbs "/w" = true ∧
    patternContribution ⟨"/w", fun _ => []⟩ "lit.mp3" = ["/w/lit.mp3"] ∧
    expand_paths ⟨"/w", fun _ => []⟩ ["lit.mp3"] = ["/w/lit.mp3"] := by
  have h := expand_paths_spec ⟨"/w", fun _ => []⟩ ["lit.mp3"]
  refine ⟨by decide, by decide, ?_, ?_⟩
  · rw [h.2.1 "lit.mp3" (by decide)]; decide
  · rw [h.1]
    rw [List.flatMap_cons, List.flatMap_nil, h.2.1 "lit.mp3" (by decide)]
    decide

/-! ## C3: `get_unique_output_path` -/

lemma string_append_left_cancel {a b c : String} (h : a ++ b = a ++ c) : b = c := by
  apply String.ext
  have h2 := congrArg String.data h
  simp only [String.data_append] at h2
  exact List.append_cancel_left h2

lemma string_append_right_cancel {a b c : String} (h : a ++ c = b ++ c) : a = b := by
  apply String.ext
  have h2 := congrArg String.data h
  simp only [String.data_append] at h2
  exact List.append_cancel_right h2

lemma contains_iff_mem {l : List String} {a : String} : l.contains a = true ↔ a ∈ l := by
  simp [List.contains, List.elem_iff]

lemma uniqCandidate_injective (parent stem suffix : String) :
    Function.Injective (uniqCandidate parent stem suffix) := by
  intro m n h
  have hname : stem ++ "-" ++ natStr m ++ suffix = stem ++ "-" ++ natStr n ++ suffix := by
    unfold uniqCandidate pathJoin at h
    by_cases h1 : parent = "/"
    · rw [if_pos h1, if_pos h1] at h; exact string_append_left_cancel h
    · rw [if_neg h1, if_neg h1] at h
      by_cases h2 : parent = "." ∨ parent = ""
      · rwa [if_pos h2, if_pos h2] at h
      · rw [if_neg h2, if_neg h2] at h
        exact string_append_left_cancel h
  exact natStr_injective
    (string_append_left_cancel (string_append_right_cancel hname))

lemma uniqLoop_spec (fs : FSState) (parent stem suffix : String) :
    ∀ (fuel counter : ℕ),
      (∃ i, counter ≤ i ∧ i < counter + fuel ∧
        pexists fs (uniqCandidate parent stem suffix i) = false) →
      ∃ n, counter ≤ n ∧
        uniqLoop fs parent stem suffix fuel counter = uniqCandidate parent stem suffix n ∧
        pexists fs (uniqCandidate parent stem suffix n) = false ∧
        ∀ m, counter ≤ m → m < n → pexists fs (uniqCandidate parent stem suffix m) = true := by
  intro fuel
  induction fuel with
  | zero =>
    rintro counter ⟨i, h1, h2, _⟩
    omega
  | succ f ih =>
    rintro counter ⟨i, h1, h2, h3⟩
    by_cases hc : pexists fs (uniqCandidate parent stem suffix counter) = true
    · have hne : i ≠ counter := by
        intro e
        rw [e] at h3
        rw [h3] at hc
        exact Bool.false_ne_true hc
      obtain ⟨n, hn1, hn2, hn3, hn4⟩ :=
        ih (counter + 1) ⟨i, by omega, by omega, h3⟩
      refine ⟨n, by omega, ?_, hn3, ?_⟩
      · simp only [uniqLoop]
        rw [if_pos hc]
        exact hn2
      · intro m hm1 hm2
        rcases Nat.eq_or_lt_of_le hm1 with rfl | hlt
        · exact hc
        · exact hn4 m (by omega) hm2
    · have hcf : pexists fs (uniqCandidate parent stem suffix counter) = false := by
        simpa using hc
      refine ⟨counter, le_refl _, ?_, hcf, fun m hm1 hm2 => by omega⟩
      simp only [uniqLoop]
      rw [if_neg hc]

lemma exists_free_uniqCandidate (fs : FSState) (parent stem suffix : String) :
    ∃ i, 1 ≤ i ∧ i < 1 + (fs.files.length + fs.dirs.length + 1) ∧
      pexists fs (uniqCandidate parent stem suffix i) = false := by
  by_contra hall
  push_neg at hall
  have hmem : ∀ j < fs.files.length + fs.dirs.length + 1,
      uniqCandidate parent stem suffix (j + 1) ∈ fs.files ++ fs.dirs := by
    intro j hj
    have h := hall (j + 1) (by omega) (by omega)
    have h' : pexists fs (uniqCandidate parent stem suffix (j + 1)) = true := by
      cases hb : pexists fs (uniqCandidate parent stem suffix (j + 1)) with
      | false => exact absurd hb h
      | true => rfl
    rw [pexists, Bool.or_eq_true] at h'
    rcases h' with h' | h'
    · exact List.mem_append_left _ (contains_iff_mem.mp h')
    · exact List.mem_append_right _ (contains_iff_mem.mp h')
  have hinj := uniqCandidate_injective parent stem suffix
  have hnodup : ((List.range (fs.files.length + fs.dirs.length + 1)).map
      (fun j => uniqCandidate parent stem suffix (j + 1))).Nodup := by
    refine List.Nodup.map ?_ (List.nodup_range _)
    intro a b hab
    have := hinj hab
    omega
  have hcard : ((List.range (fs.files.length + fs.dirs.length + 1)).map
      (fun j => uniqCandidate parent stem suffix (j + 1))).toFinset.card =
      fs.files.length + fs.dirs.length + 1 := by
    rw [List.toFinset_card_of_nodup hnodup]
    simp
  have hle : ((List.range (fs.files.length + fs.dirs.length + 1)).map
      (fun j => uniqCandidate parent stem suffix (j + 1))).toFinset.card ≤
      (fs.files ++ fs.dirs).toFinset.card := by
    refine Finset.card_le_card ?_
    intro x hx
    obtain ⟨j, hj, rfl⟩ := List.mem_map.mp (List.mem_toFinset.mp hx)
    exact List.mem_toFinset.mpr (hmem j (List.mem_range.mp hj))
  have hle2 : (fs.files ++ fs.dirs).toFinset.card ≤ fs.files.length + fs.dirs.length := by
    refine le_trans (List.toFinset_card_le _) ?_
    simp
  omega

/-- The path returned by `get_unique_output_path` never exists at the
moment it is returned. -/
lemma get_unique_output_path_not_exists (fs : FSState) (base : String) :
    pexists fs (get_unique_output_path fs base) = false := by
  by_cases hb : pexists fs base = true
  · obtain ⟨n, hn1, hn2, hn3, hn4⟩ :=
      uniqLoop_spec fs (pathParent base) (pathStem base) (pathSuffix base)
        (fs.files.length + fs.dirs.length + 1) 1
        (exists_free_uniqCandidate fs (pathParent base) (pathStem base) (pathSuffix base))
    rw [get_unique_output_path, if_pos hb, hn2]
    exact hn3
  · rw [get_unique_output_path, if_neg hb]
    simpa using hb

/-- C3: for every candidate path and filesystem state, uniquify returns
the candidate unchanged when it does not exist; otherwise it returns
`<stem>-<n><ext>` in the candidate's parent directory for the least
`n ≥ 1` such that that path does not exist; and the returned path never
exists at the moment it is returned. -/
theorem get_unique_output_path_spec :
    ∀ (fs : FSState) (base : String),
      (pexists fs base = false → get_unique_output_path fs base = base) ∧
      (pexists fs base = true →
        ∃ n, 1 ≤ n ∧
          get_unique_output_path fs base =
            uniqCandidate (pathParent base) (pathStem base) (pathSuffix base) n ∧
          pexists fs (uniqCandidate (pathParent base) (pathStem base) (pathSuffix base) n)
            = false ∧
          ∀ m, 1 ≤ m → m < n →
            pexists fs (uniqCandidate (pathParent base) (pathStem base) (pathSuffix base) m)
              = true) ∧
      pexists fs (get_unique_output_path fs base) = false := by
  intro fs base
  by_cases hb : pexists fs base = true
  · obtain ⟨n, hn1, hn2, hn3, hn4⟩ :=
      uniqLoop_spec fs (pathParent base) (pathStem base) (pathSuffix base)
        (fs.files.length + fs.dirs.length + 1) 1
        (exists_free_uniqCandidate fs (pathParent base) (pathStem base) (pathSuffix base))
    refine ⟨fun h => by rw [h] at hb; exact absurd hb (by simp),
      fun _ => ⟨n, hn1, ?_, hn3, hn4⟩, ?_⟩
    · rw [get_unique_output_path, if_pos hb]
      exact hn2
    · rw [get_unique_output_path, if_pos hb, hn2]
      exact hn3
  · have hbf : pexists fs base = false := by simpa using hb
    exact ⟨fun _ => by rw [get_unique_output_path, if_neg hb],
      fun h => absurd h hb,
      by rw [get_unique_output_path, if_neg hb]; exact hbf⟩

/-- C3 witness: the collision-law instance — with `a.txt` and `a-1.txt`
both existing and `a-2.txt` free, uniquify returns `a-2.txt`, which does
not exist. -/
theorem get_unique_output_path_spec_witness :
    pexists ⟨["/d/a.txt", "/d/a-1.txt"], []⟩ "/d/a.txt" = true ∧
    get_unique_output_path ⟨["/d/a.txt", "/d/a-1.txt"], []⟩ "/d/a.txt" = "/d/a-2.txt" ∧
    pexists ⟨["/d/a.txt", "/d/a-1.txt"], []⟩
      (get_unique_output_path ⟨["/d/a.txt", "/d/a-1.txt"], []⟩ "/d/a.txt") = false :=
  ⟨by decide, by decide,
    (get_unique_output_path_spec ⟨["/d/a.txt", "/d/a-1.txt"], []⟩ "/d/a.txt").2.2⟩

/-! ## C6: missing inputs fail fast -/

/-- C6: whenever at least one resolved input does not exist, the run
reports each missing path (unless quiet) and terminates with failure
status (exit 1) with the world unchanged — no output file is written and
no transcription is attempted (the outcome does not depend on the
collaborator, the writer or the model loader, all of which sit untouched
inside the returned world). -/
theorem missing_input_fail_fast :
    ∀ (w : World) (inputs : List String) (output : Option String) (fmt : String)
      (quiet : Bool),
      (∃ p ∈ expand_paths w.os inputs, pexists w.fs p = false) →
      runMain w inputs output fmt quiet =
        .ok ⟨1, w, [],
          if quiet then []
          else ((expand_paths w.os inputs).filter (fun p => !pexists w.fs p)).map
            (fun p => "Error: Input file not found: " ++ p)⟩ := by
  rintro w inputs output fmt quiet ⟨p, hp, hmiss⟩
  have hne : (expand_paths w.os inputs).isEmpty = false := by
    cases hcases : expand_paths w.os inputs with
    | nil => rw [hcases] at hp; simp at hp
    | cons a t => simp
  have hmem : p ∈ (expand_paths w.os inputs).filter (fun q => !pexists w.fs q) :=
    List.mem_filter.mpr ⟨hp, by simp [hmiss]⟩
  have hmne : ((expand_paths w.os inputs).filter (fun q => !pexists w.fs q)).isEmpty
      = false := by
    cases hcases : (expand_paths w.os inputs).filter (fun q => !pexists w.fs q) with
    | nil => rw [hcases] at hmem; simp at hmem
    | cons a t => simp
  simp only [runMain, hne, hmne, Bool.false_eq_true, if_false, Bool.not_false, if_true]

/-- C6 witness: a two-input batch whose second input is missing. -/
theorem missing_input_fail_fast_witness :
    (∃ p ∈ expand_paths
        (⟨⟨["/a/x.mp3"], []⟩, [], fun _ => Except.error "unused", fun _ => none,
          ⟨"/", fun _ => []⟩, none, true⟩ : World).os
        ["/a/x.mp3", "/a/miss.mp3"],
      pexists (⟨⟨["/a/x.mp3"], []⟩, [], fun _ => Except.error "unused", fun _ => none,
          ⟨"/", fun _ => []⟩, none, true⟩ : World).fs p = false) ∧
    runMain
      (⟨⟨["/a/x.mp3"], []⟩, [], fun _ => Except.error "unused", fun _ => none,
        ⟨"/", fun _ => []⟩, none, true⟩ : World)
      ["/a/x.mp3", "/a/miss.mp3"] none "txt" false =
      .ok ⟨1,
        ⟨⟨["/a/x.mp3"], []⟩, [], fun _ => Except.error "unused", fun _ => none,
          ⟨"/", fun _ => []⟩, none, true⟩,
        [], ["Error: Input file not found: /a/miss.mp3"]⟩ := by
  constructor
  · exact ⟨"/a/miss.mp3", by decide, by decide⟩
  · rw [missing_input_fail_fast _ _ none "txt" false ⟨"/a/miss.mp3", by decide, by decide⟩]
    rfl

/-! ## C2: per-item failure isolation in the batch loop -/

lemma get_output_path_fresh (fs : FSState) (input_path : String) (output : Option String)
    (fmt : String) :
    pexists fs (get_output_path fs input_path output fmt) = false := by
  simp only [get_output_path]
  exact get_unique_output_path_not_exists fs _

lemma contains_false_of_pexists_false {fs : FSState} {p : String}
    (h : pexists fs p = false) : fs.files.contains p = false := by
  rw [pexists, Bool.or_eq_false_iff] at h
  exact h.1

lemma transcribe_ok_eq {w : World} {input_path output_path fmt : String} {quiet : Bool}
    {r : TranscriptResult}
    (hok : w.transcribeFn input_path = .ok r)
    (hwrite : w.writeError output_path = none) :
    transcribe w input_path output_path fmt quiet =
      .ok { world := writeText w output_path (format_output r fmt), ok := true,
            stdout := [output_path],
            stderr := if quiet then [] else ["Processing " ++ fileName input_path ++ "..."] } := by
  simp only [transcribe, hok, hwrite]

lemma transcribe_err_eq {w : World} {input_path output_path fmt : String} {quiet : Bool}
    {e : String}
    (herr : w.transcribeFn input_path = .error e) :
    transcribe w input_path output_path fmt quiet =
      .ok { world := w, ok := false, stdout := [],
            stderr := (if quiet then [] else ["Processing " ++ fileName input_path ++ "..."]) ++
              (if quiet then []
               else ["Error: Transcription failed for " ++ fileName input_path ++ ": " ++ e]) } := by
  simp only [transcribe, herr]

lemma transcribe_write_fail_eq {w : World} {input_path output_path fmt : String}
    {quiet : Bool} {r : TranscriptResult} {e : String}
    (hok : w.transcribeFn input_path = .ok r)
    (hwe : w.writeError output_path = some e) :
    transcribe w input_path output_path fmt quiet = .error e := by
  simp only [transcribe, hok, hwe]

lemma writeText_fresh {w : World} {p c : String} (h : w.fs.files.contains p = false) :
    writeText w p c =
      { w with fs := ⟨w.fs.files ++ [p], w.fs.dirs⟩, written := w.written ++ [(p, c)] } := by
  have hnm : p ∉ w.fs.files := fun hm => by rw [contains_iff_mem.mpr hm] at h; cases h
  simp [writeText, h, hnm]

lemma processAll_ok (output : Option String) (fmt : String) (quiet : Bool) :
    ∀ (inputs : List String) (w : World),
      (∀ p, w.writeError p = none) →
      ∃ (out : StepOut) (nf : List (String × String)),
        processAll w inputs output fmt quiet = .ok out ∧
        out.ok = inputs.all (transcribeOk w) ∧
        out.world.written = w.written ++ nf ∧
        out.world.fs.files = w.fs.files ++ nf.map Prod.fst ∧
        out.world.fs.dirs = w.fs.dirs ∧
        out.stdout = nf.map Prod.fst ∧
        nf.length = (inputs.filter (transcribeOk w)).length ∧
        (∀ p ∈ inputs, ∀ e, w.transcribeFn p = .error e → quiet = false →
          ("Error: Transcription failed for " ++ fileName p ++ ": " ++ e) ∈ out.stderr) := by
  intro inputs
  induction inputs with
  | nil =>
    intro w hw
    exact ⟨⟨w, true, [], []⟩, [], rfl, by simp, by simp, by simp, rfl, by simp, by simp,
      by simp⟩
  | cons i rest ih =>
    intro w hw
    cases hts : w.transcribeFn i with
    | error e =>
      obtain ⟨out, nf, hpa, hok, hwr, hfi, hdi, hso, hlen, herr⟩ := ih w hw
      have hoki : transcribeOk w i = false := by simp [transcribeOk, hts]
      refine ⟨⟨out.world, false && out.ok, [] ++ out.stdout,
          ((if quiet then [] else ["Processing " ++ fileName i ++ "..."]) ++
            (if quiet then []
             else ["Error: Transcription failed for " ++ fileName i ++ ": " ++ e])) ++
            out.stderr⟩,
        nf, ?_, ?_, hwr, hfi, hdi, by simpa using hso, ?_, ?_⟩
      · simp only [processAll, transcribe_err_eq hts, hpa]
      · simp [hok, List.all_cons, hoki]
      · simp [List.filter_cons, hoki, hlen]
      · intro p hp e' he' hq
        rcases List.mem_cons.mp hp with rfl | hp'
        · rw [hts] at he'
          have he : e = e' := by
            injection he'
          subst he
          subst hq
          simp
        · exact List.mem_append_right _ (herr p hp' e' he' hq)
    | ok r =>
      have hfresh : w.fs.files.contains (get_output_path w.fs i output fmt) = false :=
        contains_false_of_pexists_false (get_output_path_fresh w.fs i output fmt)
      obtain ⟨out, nf, hpa, hok, hwr, hfi, hdi, hso, hlen, herr⟩ :=
        ih { w with
              fs := ⟨w.fs.files ++ [get_output_path w.fs i output fmt], w.fs.dirs⟩
              written := w.written ++
                [(get_output_path w.fs i output fmt, format_output r fmt)] }
          (fun p => hw p)
      have hoki : transcribeOk w i = true := by simp [transcribeOk, hts]
      refine ⟨⟨out.world, true && out.ok,
          [get_output_path w.fs i output fmt] ++ out.stdout,
          (if quiet then [] else ["Processing " ++ fileName i ++ "..."]) ++ out.stderr⟩,
        (get_output_path w.fs i output fmt, format_output r fmt) :: nf,
        ?_, ?_, ?_, ?_, ?_, ?_, ?_, ?_⟩
      · simp only [processAll, transcribe_ok_eq hts (hw _), writeText_fresh hfresh, hpa]
      · simp only [List.all_cons, hoki, Bool.true_and, hok]
        rfl
      · rw [hwr]
        simp
      · rw [hfi]
        simp
      · rw [hdi]
      · simp [hso]
      · simp only [List.length_cons, List.filter_cons, hoki, if_true, List.length_cons,
          hlen]
        rfl
      · intro p hp e' he' hq
        rcases List.mem_cons.mp hp with rfl | hp'
        · rw [hts] at he'
          simp at he'
        · exact List.mem_append_right _ (herr p hp' e' he' hq)

/-- C2: for a batch of resolved, existing inputs (with a compatible output
override, a loadable model, and writable targets), a transcription failure
on one input never aborts the run: the run completes with an `.ok`
outcome, the failing items are reported on the diagnostic channel (unless
quiet), exactly one output file per successful item is written (and its
path printed, in order), and the exit status is 0 iff every item
succeeded. -/
theorem batch_isolation :
    ∀ (w : World) (inputs : List String) (output : Option String) (fmt : String)
      (quiet : Bool),
      expand_paths w.os inputs ≠ [] →
      (∀ p ∈ expand_paths w.os inputs, pexists w.fs p = true) →
      ((expand_paths w.os inputs).length > 1 → truthy output = true →
        pIsDir w.fs (output.getD "") = true) →
      w.loadError = none →
      (∀ p, w.writeError p = none) →
      ∃ (outcome : RunOutcome) (nf : List (String × String)),
        runMain w inputs output fmt quiet = .ok outcome ∧
        outcome.exitCode =
          (if (expand_paths w.os inputs).all (transcribeOk w) then 0 else 1) ∧
        (outcome.exitCode = 0 ↔
          ∀ p ∈ expand_paths w.os inputs, transcribeOk w p = true) ∧
        outcome.world.written = w.written ++ nf ∧
        outcome.world.fs.files = w.fs.files ++ nf.map Prod.fst ∧
        outcome.stdout = nf.map Prod.fst ∧
        nf.length = ((expand_paths w.os inputs).filter (transcribeOk w)).length ∧
        (∀ p ∈ expand_paths w.os inputs, ∀ e, w.transcribeFn p = .error e →
          quiet = false →
          ("Error: Transcription failed for " ++ fileName p ++ ": " ++ e)
            ∈ outcome.stderr) := by
  intro w inputs output fmt quiet hne hexist hmult hload hwrite
  obtain ⟨out, nf, hpa, hok, hwr, hfi, hdi, hso, hlen, herr⟩ :=
    processAll_ok output fmt quiet (expand_paths w.os inputs) w hwrite
  have hempty : (expand_paths w.os inputs).isEmpty = false := by
    cases h : expand_paths w.os inputs with
    | nil => exact absurd h hne
    | cons a t => simp
  have hmiss : (expand_paths w.os inputs).filter (fun p => !pexists w.fs p) = [] :=
    List.filter_eq_nil_iff.mpr (fun p hp => by simp [hexist p hp])
  have hmb : (decide ((expand_paths w.os inputs).length > 1) && truthy output &&
      !pIsDir w.fs (output.getD "")) = false := by
    by_cases h1 : (expand_paths w.os inputs).length > 1
    · by_cases h2 : truthy output = true
      · simp [hmult h1 h2]
      · have h2f : truthy output = false := by simpa using h2
        simp [h2f]
    · simp [h1]
  refine ⟨⟨if out.ok then 0 else 1, out.world, out.stdout,
      (if !quiet && !w.modelCached then
        ["Model not found locally. Downloading " ++ MODEL_ID ++ "..."] else []) ++
        out.stderr⟩,
    nf, ?_, ?_, ?_, hwr, hfi, hso, hlen, ?_⟩
  · simp only [runMain, hempty, Bool.false_eq_true, if_false, hmiss, List.isEmpty_nil,
      Bool.not_true, hmb, hload, hpa]
  · simp only [hok]
  · rw [hok]
    constructor
    · intro h0
      by_cases hall : (expand_paths w.os inputs).all (transcribeOk w) = true
      · exact fun p hp => List.all_eq_true.mp hall p hp
      · rw [if_neg hall] at h0
        exact absurd h0 one_ne_zero
    · intro hall
      rw [if_pos (List.all_eq_true.mpr hall)]
  · intro p hp e he hq
    exact List.mem_append_right _ (herr p hp e he hq)

/-- C2 witness: the three-input scenario of the claim — outputs are
written (and printed) for the first and third inputs, one diagnostic names
the second, and the exit status is failure. -/
theorem batch_isolation_witness :
    expand_paths wC2.os ["/a/x.mp3", "/a/y.mp3", "/a/z.mp3"] ≠ [] ∧
    (∀ p ∈ expand_paths wC2.os ["/a/x.mp3", "/a/y.mp3", "/a/z.mp3"],
      pexists wC2.fs p = true) ∧
    (∃ (outcome : RunOutcome) (nf : List (String × String)),
      runMain wC2 ["/a/x.mp3", "/a/y.mp3", "/a/z.mp3"] none "txt" false = .ok outcome ∧
      outcome.exitCode = 1 ∧
      outcome.stdout = nf.map Prod.fst ∧
      nf.length = 2 ∧
      ("Error: Transcription failed for y.mp3: boom") ∈ outcome.stderr) := by
  refine ⟨by decide, by decide, ?_⟩
  obtain ⟨outcome, nf, heq, hexit, hiff, hwr, hfi, hso, hlen, herr⟩ :=
    batch_isolation wC2 ["/a/x.mp3", "/a/y.mp3", "/a/z.mp3"] none "txt" false
      (by decide) (by decide) (fun _ h => absurd h (by decide)) rfl (fun _ => rfl)
  refine ⟨outcome, nf, heq, ?_, hso, ?_, ?_⟩
  · rw [hexit]
    decide
  · rw [hlen]
    decide
  · exact herr "/a/y.mp3" (by decide) "boom" rfl rfl

/-! ## C9: only the collaborator call is guarded by `try` -/

/-- C9: the `try` block covers only the `model.transcribe` call.  If the
write of an item's output file raises, the exception propagates uncaught
out of the per-item step and aborts the whole run (`runMain` returns
`.error`, regardless of how many inputs remain); by contrast a failure of
the collaborator itself is caught inside `transcribe` and converted into
the per-item `false` flag. -/
theorem write_failure_propagates :
    (∀ (w : World) (inputs : List String) (first : String) (rest : List String)
      (output : Option String) (fmt : String) (quiet : Bool) (r : TranscriptResult)
      (e : String),
      expand_paths w.os inputs = first :: rest →
      (∀ p ∈ first :: rest, pexists w.fs p = true) →
      ((first :: rest).length > 1 → truthy output = true →
        pIsDir w.fs (output.getD "") = true) →
      w.loadError = none →
      w.transcribeFn first = .ok r →
      w.writeError (get_output_path w.fs first output fmt) = some e →
      runMain w inputs output fmt quiet = .error e) ∧
    (∀ (w : World) (input_path output_path fmt : String) (quiet : Bool) (ex : String),
      w.transcribeFn input_path = .error ex →
      transcribe w input_path output_path fmt quiet =
        .ok { world := w, ok := false, stdout := [],
              stderr :=
                (if quiet then [] else ["Processing " ++ fileName input_path ++ "..."]) ++
                (if quiet then []
                 else ["Error: Transcription failed for " ++ fileName input_path ++
                   ": " ++ ex]) }) := by
  constructor
  · intro w inputs first rest output fmt quiet r e hexp hexist hmult hload hok hwe
    have hmiss : (first :: rest).filter (fun p => !pexists w.fs p) = [] :=
      List.filter_eq_nil_iff.mpr (fun p hp => by simp [hexist p hp])
    have hmb : (decide ((first :: rest).length > 1) && truthy output &&
        !pIsDir w.fs (output.getD "")) = false := by
      by_cases h1 : (first :: rest).length > 1
      · by_cases h2 : truthy output = true
        · simp [hmult h1 h2]
        · have h2f : truthy output = false := by simpa using h2
          simp [h2f]
      · simp only [List.length_cons] at h1
        simp
        intro hlen h2
        exfalso
        omega
    simp only [runMain, hexp, List.isEmpty_cons, Bool.false_eq_true, if_false, hmiss,
      List.isEmpty_nil, Bool.not_true, hmb, hload, processAll,
      transcribe_write_fail_eq hok hwe]
  · intro w input_path output_path fmt quiet ex herr
    exact transcribe_err_eq herr

/-- C9 witness: a two-input batch where the first item's write raises —
the run aborts with that exception, the second input never processed; and
a collaborator failure is caught instead. -/
theorem write_failure_propagates_witness :
    expand_paths wC9.os ["/a/x.mp3", "/a/y.mp3"] = ["/a/x.mp3", "/a/y.mp3"] ∧
    wC9.writeError (get_output_path wC9.fs "/a/x.mp3" none "txt") = some "disk full" ∧
    runMain wC9 ["/a/x.mp3", "/a/y.mp3"] none "txt" false = .error "disk full" := by
  refine ⟨by decide, by decide, ?_⟩
  exact write_failure_propagates.1 wC9 ["/a/x.mp3", "/a/y.mp3"] "/a/x.mp3" ["/a/y.mp3"]
    none "txt" false ⟨"hi", []⟩ "disk full" (by decide) (by decide)
    (fun _ h => absurd h (by decide)) rfl rfl (by decide)

/-! ## C7: the json round trip — string escaping -/

lemma hexVal_hexDigit {d : ℕ} (hd : d < 16) : hexVal (hexDigit d) = some d := by
  interval_cases d <;> decide

lemma pstr_escape : ∀ (l : List Char) (rest : List Char),
    pstr (l.flatMap escChar ++ '"' :: rest) = some (l, rest) := by
  intro l
  induction l with
  | nil =>
    intro rest
    conv_lhs => rw [List.flatMap_nil, List.nil_append, pstr.eq_def]
    simp
  | cons c t ih =>
    intro rest
    rw [List.flatMap_cons, List.append_assoc]
    by_cases h1 : c = '"'
    · subst h1
      rw [show escChar '"' = ['\\', '"'] from rfl]
      simp only [List.cons_append, List.nil_append]
      conv_lhs => rw [pstr.eq_def]
      simp [ih]
    · by_cases h2 : c = '\\'
      · subst h2
        rw [show escChar '\\' = ['\\', '\\'] from rfl]
        simp only [List.cons_append, List.nil_append]
        conv_lhs => rw [pstr.eq_def]
        simp [ih]
      · by_cases h3 : c = '\n'
        · subst h3
          rw [show escChar '\n' = ['\\', 'n'] from rfl]
          simp only [List.cons_append, List.nil_append]
          conv_lhs => rw [pstr.eq_def]
          simp [ih]
        · by_cases h4 : c = '\r'
          · subst h4
            rw [show escChar '\r' = ['\\', 'r'] from rfl]
            simp only [List.cons_append, List.nil_append]
            conv_lhs => rw [pstr.eq_def]
            simp [ih]
          · by_cases h5 : c = '\t'
            · subst h5
              rw [show escChar '\t' = ['\\', 't'] from rfl]
              simp only [List.cons_append, List.nil_append]
              conv_lhs => rw [pstr.eq_def]
              simp [ih]
            · by_cases h6 : c.toNat = 8
              · have hc : c = Char.ofNat 8 := by rw [← Char.ofNat_toNat c, h6]
                subst hc
                rw [show escChar (Char.ofNat 8) = ['\\', 'b'] from rfl]
                simp only [List.cons_append, List.nil_append]
                conv_lhs => rw [pstr.eq_def]
                simp [ih]
              · by_cases h7 : c.toNat = 12
                · have hc : c = Char.ofNat 12 := by rw [← Char.ofNat_toNat c, h7]
                  subst hc
                  rw [show escChar (Char.ofNat 12) = ['\\', 'f'] from rfl]
                  simp only [List.cons_append, List.nil_append]
                  conv_lhs => rw [pstr.eq_def]
                  simp [ih]
                · by_cases h8 : c.toNat < 32
                  · have hhi : c.toNat / 16 < 16 := by omega
                    have hlo : c.toNat % 16 < 16 := by omega
                    simp only [escChar, if_neg h1, if_neg h2, if_neg h3, if_neg h4,
                      if_neg h5, if_neg h6, if_neg h7, if_pos h8, List.cons_append,
                      List.nil_append]
                    conv_lhs => rw [pstr.eq_def]
                    simp [show hexVal '0' = some 0 from rfl, hexVal_hexDigit hhi,
                      hexVal_hexDigit hlo, ih]
                    rw [Nat.div_add_mod, Char.ofNat_toNat]
                  · simp only [escChar, if_neg h1, if_neg h2, if_neg h3, if_neg h4,
                      if_neg h5, if_neg h6, if_neg h7, if_neg h8, List.cons_append,
                      List.nil_append]
                    conv_lhs => rw [pstr.eq_def]
                    simp [if_neg h1, if_neg h2, if_neg h8, ih]

/-! ## C7: digit-run lemmas -/

lemma digitChar_isDigit {d : ℕ} (hd : d < 10) : (digitChar d).isDigit = true := by
  interval_cases d <;> decide

lemma natStrAux_digits : ∀ (f n : ℕ), ∀ c ∈ natStrAux f n, c.isDigit = true := by
  intro f
  induction f with
  | zero => intro n c hc; simp [natStrAux] at hc
  | succ f ih =>
    intro n c hc
    by_cases h10 : n < 10
    · rw [natStrAux, if_pos h10] at hc
      rcases List.mem_singleton.mp hc with rfl
      exact digitChar_isDigit h10
    · rw [natStrAux, if_neg h10] at hc
      rcases List.mem_append.mp hc with hc' | hc'
      · exact ih _ c hc'
      · rcases List.mem_singleton.mp hc' with rfl
        exact digitChar_isDigit (Nat.mod_lt _ (by omega))

lemma natStr_digits (n : ℕ) : ∀ c ∈ (natStr n).data, c.isDigit = true :=
  natStrAux_digits (n + 1) n

lemma natStrAux_ne_nil (f n : ℕ) (hf : 0 < f) : natStrAux f n ≠ [] := by
  cases f with
  | zero => omega
  | succ f =>
    rw [natStrAux]
    by_cases h10 : n < 10
    · simp [h10]
    · simp [h10]

lemma isDigit_ne {c x : Char} (h : c.isDigit = true) (hx : x.isDigit = false) : c ≠ x :=
  fun e => by subst e; rw [h] at hx; cases hx

lemma isDigit_not_ws {c : Char} (h : c.isDigit = true) : isWsChar c = false := by
  cases hb : isWsChar c with
  | false => rfl
  | true =>
    simp only [isWsChar, decide_eq_true_eq] at hb
    rcases hb with rfl | rfl | rfl | rfl <;> exact absurd h (by decide)

lemma foldl_dec_replicate_zero : ∀ m : ℕ,
    (List.replicate m '0').foldl (fun a c => 10 * a + (c.toNat - 48)) 0 = 0 := by
  intro m
  induction m with
  | zero => rfl
  | succ m ih =>
    rw [List.replicate_succ, List.foldl_cons]
    simpa using ih

lemma natStrAux_length_le : ∀ f n k, n < f → n < 10 ^ k →
    (natStrAux f n).length ≤ max k 1 := by
  intro f
  induction f with
  | zero => intro n k h; omega
  | succ f ih =>
    intro n k hf hk
    by_cases h10 : n < 10
    · rw [natStrAux, if_pos h10]
      exact le_max_right k 1
    · have hk2 : 2 ≤ k := by
        by_contra hlt
        push_neg at hlt
        interval_cases k <;> simp_all <;> omega
      have hdivf : n / 10 < f := by
        have := Nat.div_lt_self (show 0 < n by omega) (show 1 < 10 by omega)
        omega
      have hdivk : n / 10 < 10 ^ (k - 1) := by
        rw [Nat.div_lt_iff_lt_mul (by omega : 0 < 10)]
        have hpow : 10 ^ (k - 1) * 10 = 10 ^ k := by
          rw [← pow_succ]
          congr 1
          omega
        omega
      have hrec := ih (n / 10) (k - 1) hdivf hdivk
      rw [natStrAux, if_neg h10]
      simp only [List.length_append, List.length_cons, List.length_nil]
      omega

lemma takeDigits_append (ds : List Char) :
    ∀ (rest : List Char) (acc cnt : ℕ),
      (∀ c ∈ ds, c.isDigit = true) →
      (∀ c, rest.head? = some c → c.isDigit = false) →
      takeDigits (ds ++ rest) acc cnt =
        (ds.foldl (fun a c => 10 * a + (c.toNat - 48)) acc, cnt + ds.length, rest) := by
  induction ds with
  | nil =>
    intro rest acc cnt _ hrest
    cases rest with
    | nil => simp [takeDigits]
    | cons c r =>
      have hc := hrest c rfl
      simp [takeDigits, hc]
  | cons c t ih =>
    intro rest acc cnt hds hrest
    have hc : c.isDigit = true := hds c (List.mem_cons_self _ _)
    rw [List.cons_append, takeDigits, if_pos hc,
      ih rest _ _ (fun x hx => hds x (List.mem_cons_of_mem _ hx)) hrest,
      List.foldl_cons]
    simp only [List.length_cons]
    have hlen : cnt + 1 + t.length = cnt + (t.length + 1) := by omega
    rw [hlen]

/-! ## C7: number round trip -/

lemma foldl_natStr (n : ℕ) :
    (natStr n).data.foldl (fun a c => 10 * a + (c.toNat - 48)) 0 = n :=
  decVal_natStrAux (n + 1) n (Nat.lt_succ_self n)

lemma natStr_data_ne_nil (n : ℕ) : (natStr n).data ≠ [] :=
  natStrAux_ne_nil (n + 1) n (Nat.succ_pos n)

/-- The value reconstructed from the rendered digits equals the rational
being rendered. -/
lemma renderQnn_value (n d k : ℕ) (hd : 0 < d) (hdvd : d ∣ 10 ^ k) :
    ((n * 10 ^ k / d / 10 ^ k : ℕ) : ℚ) +
      ((n * 10 ^ k / d % 10 ^ k : ℕ) : ℚ) / 10 ^ max k 1 = (n : ℚ) / d := by
  rcases Nat.eq_zero_or_pos k with rfl | hk
  · have hd1 : d = 1 := Nat.dvd_one.mp (by simpa using hdvd)
    subst hd1
    simp [Nat.mod_one]
  · have hmax : max k 1 = k := by omega
    rw [hmax]
    have hdvd2 : d ∣ n * 10 ^ k := Dvd.dvd.mul_left hdvd n
    have h10 : ((10 : ℚ) ^ k) ≠ 0 := by positivity
    have hdq : ((d : ℚ)) ≠ 0 := Nat.cast_ne_zero.mpr hd.ne'
    have hmod := Nat.div_add_mod (n * 10 ^ k / d) (10 ^ k)
    have hcast : ((10 : ℚ)) ^ k * ((n * 10 ^ k / d / 10 ^ k : ℕ) : ℚ) +
        ((n * 10 ^ k / d % 10 ^ k : ℕ) : ℚ) = ((n * 10 ^ k / d : ℕ) : ℚ) := by
      exact_mod_cast congrArg (Nat.cast : ℕ → ℚ) hmod
    have hstep : ((n * 10 ^ k / d / 10 ^ k : ℕ) : ℚ) +
        ((n * 10 ^ k / d % 10 ^ k : ℕ) : ℚ) / 10 ^ k =
        ((n * 10 ^ k / d : ℕ) : ℚ) / 10 ^ k := by
      rw [← hcast]
      field_simp
      ring
    rw [hstep, Nat.cast_div hdvd2 hdq]
    push_cast
    field_simp
    ring

/-- Decomposition of the rendered decimal into its character runs. -/
lemma renderQnn_data (n d k : ℕ) (rest : List Char) :
    (renderQnn n d k).data ++ rest =
      (natStr (n * 10 ^ k / d / 10 ^ k)).data ++
        ('.' :: ((List.replicate
            (max k 1 - (natStr (n * 10 ^ k / d % 10 ^ k)).length) '0' ++
          (natStr (n * 10 ^ k / d % 10 ^ k)).data) ++ rest)) := by
  simp [renderQnn, String.data_append, List.append_assoc]

lemma pexpo_stop (v : ℚ) (rest : List Char)
    (hrest : ∀ c, rest.head? = some c → c ≠ 'e' ∧ c ≠ 'E') :
    pexpo v rest = some (v, rest) := by
  cases rest with
  | nil => simp [pexpo]
  | cons c r =>
    have h := hrest c rfl
    simp only [pexpo]
    rw [if_neg (fun hor => hor.elim h.1 h.2)]

lemma pnumCore_renderQnn (neg : Bool) (n d k : ℕ) (rest : List Char) (hd : 0 < d)
    (hdvd : d ∣ 10 ^ k)
    (hrest : ∀ c, rest.head? = some c →
      c.isDigit = false ∧ c ≠ 'e' ∧ c ≠ 'E') :
    pnumCore neg ((renderQnn n d k).data ++ rest) =
      some ((if neg then -((n : ℚ) / d) else (n : ℚ) / d), rest) := by
  rw [renderQnn_data]
  obtain ⟨c0, cs0, hip⟩ :=
    List.exists_cons_of_ne_nil (natStr_data_ne_nil (n * 10 ^ k / d / 10 ^ k))
  have hc0 : c0.isDigit = true := by
    have hmem : c0 ∈ (natStr (n * 10 ^ k / d / 10 ^ k)).data := by
      rw [hip]
      exact List.mem_cons_self _ _
    exact natStr_digits _ c0 hmem
  have hfr : n * 10 ^ k / d % 10 ^ k < 10 ^ k :=
    Nat.mod_lt _ (pow_pos (by omega : (0 : ℕ) < 10) k)
  have hlen : (natStr (n * 10 ^ k / d % 10 ^ k)).length ≤ max k 1 :=
    natStrAux_length_le (n * 10 ^ k / d % 10 ^ k + 1) (n * 10 ^ k / d % 10 ^ k) k
      (Nat.lt_succ_self _) hfr
  obtain ⟨e0, es, hfd⟩ := List.exists_cons_of_ne_nil
    (show List.replicate (max k 1 - (natStr (n * 10 ^ k / d % 10 ^ k)).length) '0' ++
        (natStr (n * 10 ^ k / d % 10 ^ k)).data ≠ [] from by
      intro hnil
      exact natStr_data_ne_nil _ (List.append_eq_nil.mp hnil).2)
  have hfddig : ∀ c ∈ List.replicate
      (max k 1 - (natStr (n * 10 ^ k / d % 10 ^ k)).length) '0' ++
      (natStr (n * 10 ^ k / d % 10 ^ k)).data, c.isDigit = true := by
    intro c hc
    rcases List.mem_append.mp hc with hm | hm
    · rcases List.eq_of_mem_replicate hm with rfl
      decide
    · exact natStr_digits _ c hm
  have he0 : e0.isDigit = true := by
    refine hfddig e0 ?_
    rw [hfd]
    exact List.mem_cons_self _ _
  have hdotdig : ∀ c : Char,
      (('.' :: ((List.replicate (max k 1 - (natStr (n * 10 ^ k / d % 10 ^ k)).length) '0' ++
        (natStr (n * 10 ^ k / d % 10 ^ k)).data) ++ rest)) : List Char).head? = some c →
      c.isDigit = false := by
    intro c hc
    rw [List.head?_cons] at hc
    cases hc
    decide
  have hrestdig : ∀ c, rest.head? = some c → c.isDigit = false :=
    fun c hc => (hrest c hc).1
  rw [hip, List.cons_append]
  simp only [pnumCore]
  rw [if_pos hc0, ← List.cons_append, ← hip,
    takeDigits_append _ _ 0 0 (natStr_digits _) hdotdig, foldl_natStr]
  simp only [pfrac, eq_self_iff_true, if_true]
  rw [hfd, List.cons_append]
  dsimp only
  rw [if_pos he0]
  rw [← List.cons_append, ← hfd, takeDigits_append _ _ 0 0 hfddig hrestdig]
  have hfold : (List.replicate (max k 1 - (natStr (n * 10 ^ k / d % 10 ^ k)).length) '0' ++
      (natStr (n * 10 ^ k / d % 10 ^ k)).data).foldl
        (fun a c => 10 * a + (c.toNat - 48)) 0 = n * 10 ^ k / d % 10 ^ k := by
    rw [List.foldl_append, foldl_dec_replicate_zero, foldl_natStr]
  have hlen2 : 0 + (List.replicate (max k 1 -
      (natStr (n * 10 ^ k / d % 10 ^ k)).length) '0' ++
      (natStr (n * 10 ^ k / d % 10 ^ k)).data).length = max k 1 := by
    simp only [List.length_append, List.length_replicate, Nat.zero_add]
    have hsl : (natStr (n * 10 ^ k / d % 10 ^ k)).data.length =
        (natStr (n * 10 ^ k / d % 10 ^ k)).length := rfl
    rw [hsl]
    omega
  rw [hfold, hlen2]
  dsimp only
  rw [pexpo_stop _ _ (fun c hc => ⟨(hrest c hc).2.1, (hrest c hc).2.2⟩)]
  rw [show ((n * 10 ^ k / d / 10 ^ k : ℕ) : ℚ) +
      ((n * 10 ^ k / d % 10 ^ k : ℕ) : ℚ) / 10 ^ max k 1 = (n : ℚ) / d from
    renderQnn_value n d k hd hdvd]

lemma renderQnn_head_digit (n d k : ℕ) :
    ∃ c0 t, (renderQnn n d k).data = c0 :: t ∧ c0.isDigit = true := by
  obtain ⟨c0, cs0, hip⟩ :=
    List.exists_cons_of_ne_nil (natStr_data_ne_nil (n * 10 ^ k / d / 10 ^ k))
  have hc0 : c0.isDigit = true := by
    have hmem : c0 ∈ (natStr (n * 10 ^ k / d / 10 ^ k)).data := by
      rw [hip]
      exact List.mem_cons_self _ _
    exact natStr_digits _ c0 hmem
  have h := renderQnn_data n d k []
  rw [List.append_nil, List.append_nil] at h
  refine ⟨c0, cs0 ++ ('.' :: (List.replicate
    (max k 1 - (natStr (n * 10 ^ k / d % 10 ^ k)).length) '0' ++
    (natStr (n * 10 ^ k / d % 10 ^ k)).data)), ?_, hc0⟩
  rw [h, hip, List.cons_append]

lemma pnum_renderQ (q : ℚ) (rest : List Char) (hq : decimalRep q = true)
    (hrest : ∀ c, rest.head? = some c → c.isDigit = false ∧ c ≠ 'e' ∧ c ≠ 'E') :
    pnum ((renderQ q).data ++ rest) = some (q, rest) := by
  obtain ⟨k, hk⟩ := Option.isSome_iff_exists.mp hq
  have hk' : (List.range (q.den + 1)).find? (fun j => 10 ^ j % q.den = 0) = some k := hk
  have hp := List.find?_some hk'
  simp only [decide_eq_true_eq] at hp
  have hkdvd : q.den ∣ 10 ^ k := (Nat.dvd_iff_mod_eq_zero).mpr hp
  have hden : 0 < q.den := q.den_pos
  rw [renderQ, hk]
  by_cases hneg : q < 0
  · rw [if_pos hneg]
    have hdata : (("-" : String) ++ renderQnn q.num.natAbs q.den k).data ++ rest =
        '-' :: ((renderQnn q.num.natAbs q.den k).data ++ rest) := by
      simp [String.data_append]
    rw [hdata]
    simp only [pnum, if_true]
    rw [pnumCore_renderQnn true q.num.natAbs q.den k rest hden hkdvd hrest,
      if_pos rfl]
    have hnum : ((q.num.natAbs : ℕ) : ℚ) = -(q.num : ℚ) := by
      rw [Int.cast_natAbs]
      have habs : |q.num| = -q.num := abs_of_nonpos (le_of_lt (Rat.num_neg.mpr hneg))
      rw [habs]
      push_cast
      ring
    rw [hnum, neg_div, neg_neg, Rat.num_div_den]
  · rw [if_neg hneg]
    have h0 : 0 ≤ q := not_lt.mp hneg
    have hdata : (("" : String) ++ renderQnn q.num.natAbs q.den k).data ++ rest =
        (renderQnn q.num.natAbs q.den k).data ++ rest := by
      simp [String.data_append]
    rw [hdata]
    obtain ⟨c0, t, hct, hc0⟩ := renderQnn_head_digit q.num.natAbs q.den k
    rw [hct, List.cons_append]
    simp only [pnum]
    rw [if_neg (isDigit_ne hc0 (by decide)), ← List.cons_append, ← hct,
      pnumCore_renderQnn false q.num.natAbs q.den k rest hden hkdvd hrest,
      if_neg (by simp : ¬(false = true))]
    have hnum : ((q.num.natAbs : ℕ) : ℚ) = (q.num : ℚ) := by
      rw [Int.cast_natAbs]
      have habs : |q.num| = q.num := abs_of_nonneg (Rat.num_nonneg.mpr h0)
      rw [habs]
    rw [hnum, Rat.num_div_den]

/-! ## C7: parser value steps -/

lemma skipWs_space (cs : List Char) : skipWs (' ' :: cs) = skipWs cs := by
  simp [skipWs, isWsChar]

lemma skipWs_nl (cs : List Char) : skipWs ('\n' :: cs) = skipWs cs := by
  simp [skipWs, isWsChar]

lemma skipWs_keep {c : Char} (h : isWsChar c = false) (cs : List Char) :
    skipWs (c :: cs) = c :: cs := by
  simp [skipWs, h]

lemma string_mk_data (s : String) : (⟨s.data⟩ : String) = s := by
  cases s
  rfl

lemma skipWs_append (ws : List Char) (cs : List Char)
    (h : ∀ c ∈ ws, isWsChar c = true) : skipWs (ws ++ cs) = skipWs cs := by
  induction ws with
  | nil => rw [List.nil_append]
  | cons c t ih =>
    rw [List.cons_append, skipWs, if_pos (h c (List.mem_cons_self _ _))]
    exact ih (fun x hx => h x (List.mem_cons_of_mem _ hx))

/-- A JSON string value parses back to the string it serializes. -/
lemma parseCore_value_str (f : ℕ) (s : String) (ws rest : List Char)
    (hws : ∀ c ∈ ws, isWsChar c = true) :
    parseCore (f + 1) PMode.value (ws ++ ('"' :: ((escapeJson s).data ++ '"' :: rest))) =
      some (PRes.v (JVal.jstr s), rest) := by
  simp only [parseCore]
  rw [skipWs_append ws _ hws, skipWs_keep (by decide)]
  dsimp only
  rw [if_pos rfl]
  rw [show (escapeJson s).data = s.data.flatMap escChar from rfl, pstr_escape]
  simp [string_mk_data]

/-- The first character of a rendered number: never whitespace and never the
first character of another kind of JSON value. -/
lemma renderQ_head (q : ℚ) (hq : decimalRep q = true) :
    ∃ c t, (renderQ q).data = c :: t ∧ isWsChar c = false ∧
      c ≠ '"' ∧ c ≠ '{' ∧ c ≠ '[' ∧ c ≠ 't' ∧ c ≠ 'f' ∧ c ≠ 'n' := by
  obtain ⟨k, hk⟩ := Option.isSome_iff_exists.mp hq
  rw [renderQ, hk]
  by_cases hneg : q < 0
  · rw [if_pos hneg]
    refine ⟨'-', (renderQnn q.num.natAbs q.den k).data, ?_, by decide, by decide,
      by decide, by decide, by decide, by decide, by decide⟩
    simp [String.data_append]
  · rw [if_neg hneg]
    obtain ⟨c0, t0, hct, hc0⟩ := renderQnn_head_digit q.num.natAbs q.den k
    refine ⟨c0, t0, ?_, isDigit_not_ws hc0, isDigit_ne hc0 (by decide),
      isDigit_ne hc0 (by decide), isDigit_ne hc0 (by decide), isDigit_ne hc0 (by decide),
      isDigit_ne hc0 (by decide), isDigit_ne hc0 (by decide)⟩
    have h0 : (("" : String) ++ renderQnn q.num.natAbs q.den k).data =
        (renderQnn q.num.natAbs q.den k).data := by
      simp [String.data_append]
    rw [h0, hct]

/-- A JSON number value parses back to the rational it serializes. -/
lemma parseCore_value_num (f : ℕ) (q : ℚ) (ws rest : List Char)
    (hws : ∀ c ∈ ws, isWsChar c = true) (hq : decimalRep q = true)
    (hrest : ∀ c, rest.head? = some c → c.isDigit = false ∧ c ≠ 'e' ∧ c ≠ 'E') :
    parseCore (f + 1) PMode.value (ws ++ ((renderQ q).data ++ rest)) =
      some (PRes.v (JVal.jnum q), rest) := by
  obtain ⟨c, t, hct, hcws, h1, h2, h3, h4, h5, h6⟩ := renderQ_head q hq
  simp only [parseCore]
  rw [skipWs_append ws _ hws, hct, List.cons_append, skipWs_keep hcws]
  dsimp only
  rw [if_neg h1, if_neg h2, if_neg h3, if_neg h4, if_neg h5, if_neg h6,
    ← List.cons_append, ← hct, pnum_renderQ q rest hq hrest]
  rfl

/-- One-step unfolding of `parseCore` in value mode (stated with an atomic
fuel variable so rewriting never cascades into the recursive calls). -/
lemma parseCore_value_eq (f : ℕ) (cs : List Char) :
    parseCore (f + 1) PMode.value cs =
      match skipWs cs with
      | [] => none
      | c :: rest =>
        if c = '"' then (pstr rest).map (fun x => (PRes.v (JVal.jstr ⟨x.1⟩), x.2))
        else if c = '{' then
          match skipWs rest with
          | [] => none
          | c2 :: r2 =>
            if c2 = '}' then some (PRes.v (JVal.jobj []), r2)
            else
              match parseCore f PMode.fields rest with
              | some (PRes.flds fl, r3) => some (PRes.v (JVal.jobj fl), r3)
              | _ => none
        else if c = '[' then
          match skipWs rest with
          | [] => none
          | c2 :: r2 =>
            if c2 = ']' then some (PRes.v (JVal.jarr []), r2)
            else
              match parseCore f PMode.elems rest with
              | some (PRes.vs xs, r3) => some (PRes.v (JVal.jarr xs), r3)
              | _ => none
        else if c = 't' then
          match rest with
          | 'r' :: 'u' :: 'e' :: r2 => some (PRes.v (JVal.jbool true), r2)
          | _ => none
        else if c = 'f' then
          match rest with
          | 'a' :: 'l' :: 's' :: 'e' :: r2 => some (PRes.v (JVal.jbool false), r2)
          | _ => none
        else if c = 'n' then
          match rest with
          | 'u' :: 'l' :: 'l' :: r2 => some (PRes.v JVal.jnull, r2)
          | _ => none
        else (pnum (c :: rest)).map (fun x => (PRes.v (JVal.jnum x.1), x.2)) := by
  simp only [parseCore]

/-- One-step unfolding of `parseCore` in elems mode. -/
lemma parseCore_elems_eq (f : ℕ) (cs : List Char) :
    parseCore (f + 1) PMode.elems cs =
      match parseCore f PMode.value cs with
      | some (PRes.v x, r) =>
        (match skipWs r with
         | [] => none
         | c2 :: r2 =>
           if c2 = ',' then
             match parseCore f PMode.elems r2 with
             | some (PRes.vs xs, r3) => some (PRes.vs (x :: xs), r3)
             | _ => none
           else if c2 = ']' then some (PRes.vs [x], r2)
           else none)
      | _ => none := by
  simp only [parseCore]

/-- One-step unfolding of `parseCore` in fields mode. -/
lemma parseCore_fields_eq (f : ℕ) (cs : List Char) :
    parseCore (f + 1) PMode.fields cs =
      match skipWs cs with
      | [] => none
      | c :: rest =>
        if c = '"' then
          match pstr rest with
          | some (k, r) =>
            (match skipWs r with
             | [] => none
             | c2 :: r2 =>
               if c2 = ':' then
                 match parseCore f PMode.value r2 with
                 | some (PRes.v x, r3) =>
                   (match skipWs r3 with
                    | [] => none
                    | c3 :: r4 =>
                      if c3 = ',' then
                        match parseCore f PMode.fields r4 with
                        | some (PRes.flds xs, r5) => some (PRes.flds ((⟨k⟩, x) :: xs), r5)
                        | _ => none
                      else if c3 = '}' then some (PRes.flds [(⟨k⟩, x)], r4)
                      else none)
                 | _ => none
               else none)
          | none => none
        else none := by
  simp only [parseCore]

/-- Parsing the trailing `"end"` field of a serialized sentence object. -/
lemma parseCore_fields_end (g : ℕ) (q : ℚ) (rest : List Char) (hq : decimalRep q = true) :
    parseCore (g + 2) PMode.fields
      ('\n' :: ' ' :: ' ' :: ' ' :: ' ' :: ' ' :: ' ' :: '"' :: 'e' :: 'n' :: 'd' ::
        '"' :: ':' :: ' ' ::
        ((renderQ q).data ++ ('\n' :: ' ' :: ' ' :: ' ' :: ' ' :: '}' :: rest))) =
      some (PRes.flds [("end", JVal.jnum q)], rest) := by
  rw [show g + 2 = (g + 1) + 1 from rfl, parseCore_fields_eq]
  rw [skipWs_nl, skipWs_space, skipWs_space, skipWs_space, skipWs_space, skipWs_space,
    skipWs_space, skipWs_keep (by decide)]
  dsimp only
  rw [if_pos rfl]
  rw [show ('e' :: 'n' :: 'd' :: '"' :: ':' :: ' ' ::
      ((renderQ q).data ++ ('\n' :: ' ' :: ' ' :: ' ' :: ' ' :: '}' :: rest))) =
    ("end".data.flatMap escChar) ++ '"' :: (':' :: ' ' ::
      ((renderQ q).data ++ ('\n' :: ' ' :: ' ' :: ' ' :: ' ' :: '}' :: rest))) from rfl]
  rw [pstr_escape]
  dsimp only
  rw [skipWs_keep (by decide)]
  dsimp only
  rw [if_pos rfl]
  have hv := parseCore_value_num g q [' ']
    ('\n' :: ' ' :: ' ' :: ' ' :: ' ' :: '}' :: rest)
    (by intro c hc; rcases List.mem_singleton.mp hc with rfl; decide) hq
    (by intro c hc; rw [List.head?_cons] at hc; cases hc; exact ⟨by decide, by decide, by decide⟩)
  rw [List.singleton_append] at hv
  rw [hv]
  dsimp only
  rw [skipWs_nl, skipWs_space, skipWs_space, skipWs_space, skipWs_space,
    skipWs_keep (by decide)]
  dsimp only
  rw [if_neg (by decide : ¬('}' : Char) = ','), if_pos rfl, string_mk_data]

/-- Parsing the `"start"` and `"end"` fields of a serialized sentence
object. -/
lemma parseCore_fields_start (g : ℕ) (q1 q2 : ℚ) (rest : List Char)
    (hq1 : decimalRep q1 = true) (hq2 : decimalRep q2 = true) :
    parseCore (g + 3) PMode.fields
      ('\n' :: ' ' :: ' ' :: ' ' :: ' ' :: ' ' :: ' ' :: '"' :: 's' :: 't' :: 'a' ::
        'r' :: 't' :: '"' :: ':' :: ' ' ::
        ((renderQ q1).data ++ (',' ::
          '\n' :: ' ' :: ' ' :: ' ' :: ' ' :: ' ' :: ' ' :: '"' :: 'e' :: 'n' :: 'd' ::
          '"' :: ':' :: ' ' ::
          ((renderQ q2).data ++ ('\n' :: ' ' :: ' ' :: ' ' :: ' ' :: '}' :: rest))))) =
      some (PRes.flds [("start", JVal.jnum q1), ("end", JVal.jnum q2)], rest) := by
  rw [show g + 3 = (g + 2) + 1 from rfl, parseCore_fields_eq]
  rw [skipWs_nl, skipWs_space, skipWs_space, skipWs_space, skipWs_space, skipWs_space,
    skipWs_space, skipWs_keep (by decide)]
  dsimp only
  rw [if_pos rfl]
  rw [show ('s' :: 't' :: 'a' :: 'r' :: 't' :: '"' :: ':' :: ' ' ::
      ((renderQ q1).data ++ (',' ::
        '\n' :: ' ' :: ' ' :: ' ' :: ' ' :: ' ' :: ' ' :: '"' :: 'e' :: 'n' :: 'd' ::
        '"' :: ':' :: ' ' ::
        ((renderQ q2).data ++ ('\n' :: ' ' :: ' ' :: ' ' :: ' ' :: '}' :: rest))))) =
    ("start".data.flatMap escChar) ++ '"' :: (':' :: ' ' ::
      ((renderQ q1).data ++ (',' ::
        '\n' :: ' ' :: ' ' :: ' ' :: ' ' :: ' ' :: ' ' :: '"' :: 'e' :: 'n' :: 'd' ::
        '"' :: ':' :: ' ' ::
        ((renderQ q2).data ++ ('\n' :: ' ' :: ' ' :: ' ' :: ' ' :: '}' :: rest))))) from rfl]
  rw [pstr_escape]
  dsimp only
  rw [skipWs_keep (by decide)]
  dsimp only
  rw [if_pos rfl]
  have hv := parseCore_value_num (g + 1) q1 [' ']
    (',' :: '\n' :: ' ' :: ' ' :: ' ' :: ' ' :: ' ' :: ' ' :: '"' :: 'e' :: 'n' :: 'd' ::
      '"' :: ':' :: ' ' ::
      ((renderQ q2).data ++ ('\n' :: ' ' :: ' ' :: ' ' :: ' ' :: '}' :: rest)))
    (by intro c hc; rcases List.mem_singleton.mp hc with rfl; decide) hq1
    (by intro c hc; rw [List.head?_cons] at hc; cases hc; exact ⟨by decide, by decide, by decide⟩)
  rw [List.singleton_append] at hv
  rw [hv]
  dsimp only
  rw [skipWs_keep (by decide)]
  dsimp only
  rw [if_pos rfl, parseCore_fields_end g q2 rest hq2, string_mk_data]

/-- The character stream of a serialized sentence object, decomposed for the
parser walk. -/
lemma sentenceJson_data (s : Sentence) (rest : List Char) :
    (sentenceJson s).data ++ rest =
      ' ' :: ' ' :: ' ' :: ' ' :: '{' ::
      '\n' :: ' ' :: ' ' :: ' ' :: ' ' :: ' ' :: ' ' :: '"' :: 't' :: 'e' :: 'x' ::
      't' :: '"' :: ':' :: ' ' :: '"' ::
      ((escapeJson s.text).data ++ ('"' ::
        (',' :: '\n' :: ' ' :: ' ' :: ' ' :: ' ' :: ' ' :: ' ' :: '"' :: 's' :: 't' ::
          'a' :: 'r' :: 't' :: '"' :: ':' :: ' ' ::
          ((renderQ s.start).data ++ (',' ::
            '\n' :: ' ' :: ' ' :: ' ' :: ' ' :: ' ' :: ' ' :: '"' :: 'e' :: 'n' ::
            'd' :: '"' :: ':' :: ' ' ::
            ((renderQ s.end_).data ++
              ('\n' :: ' ' :: ' ' :: ' ' :: ' ' :: '}' :: rest))))))) := by
  simp only [sentenceJson, String.data_append, List.append_assoc, List.cons_append]
  rfl

/-- A serialized sentence object parses back to its three-field JSON value. -/
lemma parseCore_sentence (g : ℕ) (s : Sentence) (ws rest : List Char)
    (hws : ∀ c ∈ ws, isWsChar c = true)
    (h1 : decimalRep s.start = true) (h2 : decimalRep s.end_ = true) :
    parseCore (g + 5) PMode.value (ws ++ ((sentenceJson s).data ++ rest)) =
      some (PRes.v (sentJ s), rest) := by
  rw [show g + 5 = (g + 4) + 1 from rfl, parseCore_value_eq, sentenceJson_data,
    skipWs_append ws _ hws]
  rw [skipWs_space, skipWs_space, skipWs_space, skipWs_space, skipWs_keep (by decide)]
  dsimp only
  rw [if_neg (by decide : ¬('{' : Char) = '"'), if_pos rfl]
  rw [skipWs_nl, skipWs_space, skipWs_space, skipWs_space, skipWs_space, skipWs_space,
    skipWs_space, skipWs_keep (by decide)]
  dsimp only
  rw [if_neg (by decide : ¬('"' : Char) = '}')]
  rw [show g + 4 = (g + 3) + 1 from rfl, parseCore_fields_eq]
  rw [skipWs_nl, skipWs_space, skipWs_space, skipWs_space, skipWs_space, skipWs_space,
    skipWs_space, skipWs_keep (by decide)]
  dsimp only
  rw [if_pos rfl]
  rw [show ('t' :: 'e' :: 'x' :: 't' :: '"' :: ':' :: ' ' :: '"' ::
      ((escapeJson s.text).data ++ ('"' ::
        (',' :: '\n' :: ' ' :: ' ' :: ' ' :: ' ' :: ' ' :: ' ' :: '"' :: 's' :: 't' ::
          'a' :: 'r' :: 't' :: '"' :: ':' :: ' ' ::
          ((renderQ s.start).data ++ (',' ::
            '\n' :: ' ' :: ' ' :: ' ' :: ' ' :: ' ' :: ' ' :: '"' :: 'e' :: 'n' ::
            'd' :: '"' :: ':' :: ' ' ::
            ((renderQ s.end_).data ++
              ('\n' :: ' ' :: ' ' :: ' ' :: ' ' :: '}' :: rest)))))))) =
    ("text".data.flatMap escChar) ++ '"' :: (':' :: ' ' :: '"' ::
      ((escapeJson s.text).data ++ ('"' ::
        (',' :: '\n' :: ' ' :: ' ' :: ' ' :: ' ' :: ' ' :: ' ' :: '"' :: 's' :: 't' ::
          'a' :: 'r' :: 't' :: '"' :: ':' :: ' ' ::
          ((renderQ s.start).data ++ (',' ::
            '\n' :: ' ' :: ' ' :: ' ' :: ' ' :: ' ' :: ' ' :: '"' :: 'e' :: 'n' ::
            'd' :: '"' :: ':' :: ' ' ::
            ((renderQ s.end_).data ++
              ('\n' :: ' ' :: ' ' :: ' ' :: ' ' :: '}' :: rest)))))))) from rfl]
  rw [pstr_escape]
  dsimp only
  rw [skipWs_keep (by decide)]
  dsimp only
  rw [if_pos rfl]
  have hv := parseCore_value_str (g + 2) s.text [' ']
    (',' :: '\n' :: ' ' :: ' ' :: ' ' :: ' ' :: ' ' :: ' ' :: '"' :: 's' :: 't' ::
      'a' :: 'r' :: 't' :: '"' :: ':' :: ' ' ::
      ((renderQ s.start).data ++ (',' ::
        '\n' :: ' ' :: ' ' :: ' ' :: ' ' :: ' ' :: ' ' :: '"' :: 'e' :: 'n' ::
        'd' :: '"' :: ':' :: ' ' ::
        ((renderQ s.end_).data ++
          ('\n' :: ' ' :: ' ' :: ' ' :: ' ' :: '}' :: rest)))))
    (by intro c hc; rcases List.mem_singleton.mp hc with rfl; decide)
  rw [List.singleton_append] at hv
  rw [hv]
  dsimp only
  rw [skipWs_keep (by decide)]
  dsimp only
  rw [if_pos rfl, parseCore_fields_start g s.start s.end_ rest h1 h2, string_mk_data]
  rfl

/-- The serialized, indented `sentences` array body parses back to the list
of sentence JSON values, preserving order and length. -/
lemma parseCore_elems_sent :
    ∀ (ss : List Sentence), ss ≠ [] →
      (∀ s ∈ ss, decimalRep s.start = true ∧ decimalRep s.end_ = true) →
      ∀ (g : ℕ) (rest : List Char),
      parseCore (g + (ss.length + 5)) PMode.elems
        ('\n' :: ((joinSep ",\n" (ss.map sentenceJson)).data ++
          ('\n' :: ' ' :: ' ' :: ']' :: rest))) =
        some (PRes.vs (ss.map sentJ), rest) := by
  intro ss
  induction ss with
  | nil => intro h; exact absurd rfl h
  | cons s ss' ih =>
    intro _ hall g rest
    have hs := hall s (List.mem_cons_self _ _)
    cases ss' with
    | nil =>
      simp only [List.map_cons, List.map_nil, joinSep, List.length_cons, List.length_nil]
      rw [show g + (0 + 1 + 5) = (g + 5) + 1 from by omega, parseCore_elems_eq]
      have hv := parseCore_sentence g s ['\n'] ('\n' :: ' ' :: ' ' :: ']' :: rest)
        (by intro c hc; rcases List.mem_singleton.mp hc with rfl; decide) hs.1 hs.2
      rw [List.singleton_append] at hv
      rw [hv]
      dsimp only
      rw [skipWs_nl, skipWs_space, skipWs_space, skipWs_keep (by decide)]
      dsimp only
      rw [if_neg (by decide : ¬(']' : Char) = ','), if_pos rfl]
    | cons s2 ss'' =>
      simp only [List.map_cons, List.length_cons]
      have hjoin : (joinSep ",\n"
            (sentenceJson s :: sentenceJson s2 :: ss''.map sentenceJson)).data ++
            ('\n' :: ' ' :: ' ' :: ']' :: rest) =
          (sentenceJson s).data ++ (',' :: '\n' ::
            ((joinSep ",\n" (sentenceJson s2 :: ss''.map sentenceJson)).data ++
              ('\n' :: ' ' :: ' ' :: ']' :: rest))) := by
        simp only [joinSep, String.data_append, List.append_assoc, List.cons_append]
        rfl
      rw [show g + (ss''.length + 1 + 1 + 5) = (g + (ss''.length + 1 + 5)) + 1 from by
        omega, parseCore_elems_eq, hjoin]
      have hv := parseCore_sentence (g + ss''.length + 1) s ['\n']
        (',' :: '\n' ::
          ((joinSep ",\n" (sentenceJson s2 :: ss''.map sentenceJson)).data ++
            ('\n' :: ' ' :: ' ' :: ']' :: rest)))
        (by intro c hc; rcases List.mem_singleton.mp hc with rfl; decide) hs.1 hs.2
      rw [List.singleton_append] at hv
      rw [show g + ss''.length + 1 + 5 = g + (ss''.length + 1 + 5) from by omega] at hv
      rw [hv]
      dsimp only
      rw [skipWs_keep (by decide)]
      dsimp only
      rw [if_pos rfl]
      have hrec := ih (by simp) (fun x hx => hall x (List.mem_cons_of_mem _ hx)) g rest
      simp only [List.map_cons, List.length_cons] at hrec
      rw [hrec]

/-- The serialized empty `sentences` array parses to the empty JSON array. -/
lemma parseCore_value_emptyarr (f : ℕ) (tail : List Char) :
    parseCore (f + 1) PMode.value (' ' :: '[' :: ']' :: tail) =
      some (PRes.v (JVal.jarr []), tail) := by
  rw [parseCore_value_eq, skipWs_space, skipWs_keep (by decide)]
  dsimp only
  rw [if_neg (by decide : ¬('[' : Char) = '"'), if_neg (by decide : ¬('[' : Char) = '{'),
    if_pos rfl, skipWs_keep (by decide)]
  dsimp only
  rw [if_pos rfl]

/-- The joined sentence objects always start with the indented opening
brace. -/
lemma joinSep_sent_head (s0 : Sentence) (ss' : List Sentence) (X : List Char) :
    ∃ T, (joinSep ",\n" ((s0 :: ss').map sentenceJson)).data ++ X =
      ' ' :: ' ' :: ' ' :: ' ' :: '{' :: T := by
  cases ss' with
  | nil =>
    simp only [List.map_cons, List.map_nil, joinSep]
    exact ⟨_, sentenceJson_data s0 X⟩
  | cons s1 ss'' =>
    simp only [List.map_cons, joinSep, String.data_append, List.append_assoc]
    exact ⟨_, sentenceJson_data s0 _⟩

/-- The serialized nonempty `sentences` array parses to the mapped list of
sentence JSON values. -/
lemma parseCore_value_sentarr (g : ℕ) (ss : List Sentence) (rest : List Char)
    (hne : ss ≠ [])
    (hts : ∀ s ∈ ss, decimalRep s.start = true ∧ decimalRep s.end_ = true) :
    parseCore ((g + (ss.length + 5)) + 1) PMode.value
      (' ' :: ('[' :: '\n' :: ((joinSep ",\n" (ss.map sentenceJson)).data ++
        ('\n' :: ' ' :: ' ' :: ']' :: rest)))) =
      some (PRes.v (JVal.jarr (ss.map sentJ)), rest) := by
  obtain ⟨s0, ss', rfl⟩ := List.exists_cons_of_ne_nil hne
  rw [parseCore_value_eq, skipWs_space, skipWs_keep (by decide)]
  dsimp only
  rw [if_neg (by decide : ¬('[' : Char) = '"'), if_neg (by decide : ¬('[' : Char) = '{'),
    if_pos rfl]
  obtain ⟨T, hT⟩ := joinSep_sent_head s0 ss' ('\n' :: ' ' :: ' ' :: ']' :: rest)
  have hpre : skipWs ('\n' :: ((joinSep ",\n" ((s0 :: ss').map sentenceJson)).data ++
      ('\n' :: ' ' :: ' ' :: ']' :: rest))) = '{' :: T := by
    rw [skipWs_nl, hT, skipWs_space, skipWs_space, skipWs_space, skipWs_space,
      skipWs_keep (by decide)]
  rw [hpre]
  dsimp only
  rw [if_neg (by decide : ¬('{' : Char) = ']'),
    parseCore_elems_sent (s0 :: ss') hne hts g rest]

/-- Parsing the two-field top-level object, given a parse of the array
value of the `sentences` field. -/
lemma parseCore_top_general (f : ℕ) (txt : String) (arrp : List Char) (av : JVal)
    (rest : List Char)
    (hA : parseCore (f + 1) PMode.value (' ' :: arrp) =
      some (PRes.v av, '\n' :: '}' :: rest)) :
    parseCore (f + 4) PMode.value
      ('{' :: '\n' :: ' ' :: ' ' :: '"' :: 't' :: 'e' :: 'x' :: 't' :: '"' :: ':' ::
        ' ' :: '"' ::
        ((escapeJson txt).data ++ ('"' ::
          (',' :: '\n' :: ' ' :: ' ' :: '"' :: 's' :: 'e' :: 'n' :: 't' :: 'e' :: 'n' ::
            'c' :: 'e' :: 's' :: '"' :: ':' :: ' ' :: arrp)))) =
      some (PRes.v (JVal.jobj [("text", JVal.jstr txt), ("sentences", av)]), rest) := by
  rw [show f + 4 = (f + 3) + 1 from rfl, parseCore_value_eq, skipWs_keep (by decide)]
  dsimp only
  rw [if_neg (by decide : ¬('{' : Char) = '"'), if_pos rfl]
  rw [skipWs_nl, skipWs_space, skipWs_space, skipWs_keep (by decide)]
  dsimp only
  rw [if_neg (by decide : ¬('"' : Char) = '}')]
  rw [show f + 3 = (f + 2) + 1 from rfl, parseCore_fields_eq]
  rw [skipWs_nl, skipWs_space, skipWs_space, skipWs_keep (by decide)]
  dsimp only
  rw [if_pos rfl]
  rw [show ('t' :: 'e' :: 'x' :: 't' :: '"' :: ':' :: ' ' :: '"' ::
      ((escapeJson txt).data ++ ('"' ::
        (',' :: '\n' :: ' ' :: ' ' :: '"' :: 's' :: 'e' :: 'n' :: 't' :: 'e' :: 'n' ::
          'c' :: 'e' :: 's' :: '"' :: ':' :: ' ' :: arrp)))) =
    ("text".data.flatMap escChar) ++ '"' :: (':' :: ' ' :: '"' ::
      ((escapeJson txt).data ++ ('"' ::
        (',' :: '\n' :: ' ' :: ' ' :: '"' :: 's' :: 'e' :: 'n' :: 't' :: 'e' :: 'n' ::
          'c' :: 'e' :: 's' :: '"' :: ':' :: ' ' :: arrp)))) from rfl]
  rw [pstr_escape]
  dsimp only
  rw [skipWs_keep (by decide)]
  dsimp only
  rw [if_pos rfl]
  have hv := parseCore_value_str (f + 1) txt [' ']
    (',' :: '\n' :: ' ' :: ' ' :: '"' :: 's' :: 'e' :: 'n' :: 't' :: 'e' :: 'n' ::
      'c' :: 'e' :: 's' :: '"' :: ':' :: ' ' :: arrp)
    (by intro c hc; rcases List.mem_singleton.mp hc with rfl; decide)
  rw [List.singleton_append] at hv
  rw [hv]
  dsimp only
  rw [skipWs_keep (by decide)]
  dsimp only
  rw [if_pos rfl]
  rw [show f + 2 = (f + 1) + 1 from rfl, parseCore_fields_eq]
  rw [skipWs_nl, skipWs_space, skipWs_space, skipWs_keep (by decide)]
  dsimp only
  rw [if_pos rfl]
  rw [show ('s' :: 'e' :: 'n' :: 't' :: 'e' :: 'n' :: 'c' :: 'e' :: 's' :: '"' :: ':' ::
      ' ' :: arrp) =
    ("sentences".data.flatMap escChar) ++ '"' :: (':' :: ' ' :: arrp) from rfl]
  rw [pstr_escape]
  dsimp only
  rw [skipWs_keep (by decide)]
  dsimp only
  rw [if_pos rfl, hA]
  dsimp only
  rw [skipWs_nl, skipWs_keep (by decide)]
  dsimp only
  rw [if_neg (by decide : ¬('}' : Char) = ','), if_pos rfl, string_mk_data, string_mk_data]

/-- The full `json.dumps` output of `format_output` parses back to the
two-field JSON object `resultJ`. -/
lemma parseCore_top (g : ℕ) (r : TranscriptResult) (rest : List Char)
    (hts : ∀ s ∈ r.sentences, decimalRep s.start = true ∧ decimalRep s.end_ = true) :
    parseCore (g + (r.sentences.length + 9)) PMode.value
      ((jsonDumpsResult r).data ++ rest) =
      some (PRes.v (resultJ r), rest) := by
  rcases hss : r.sentences with _ | ⟨s0, ss'⟩
  · have hd : (jsonDumpsResult r).data ++ rest =
        '{' :: '\n' :: ' ' :: ' ' :: '"' :: 't' :: 'e' :: 'x' :: 't' :: '"' :: ':' ::
          ' ' :: '"' ::
          ((escapeJson r.text).data ++ ('"' ::
            (',' :: '\n' :: ' ' :: ' ' :: '"' :: 's' :: 'e' :: 'n' :: 't' :: 'e' :: 'n' ::
              'c' :: 'e' :: 's' :: '"' :: ':' :: ' ' ::
              ('[' :: ']' :: '\n' :: '}' :: rest)))) := by
      simp only [jsonDumpsResult, hss, List.isEmpty_nil, if_true, String.data_append,
        List.append_assoc, List.cons_append]
      rfl
    simp only [List.length_nil]
    rw [hd, show g + (0 + 9) = (g + 5) + 4 from by omega,
      parseCore_top_general (g + 5) r.text ('[' :: ']' :: '\n' :: '}' :: rest)
        (JVal.jarr []) rest (parseCore_value_emptyarr (g + 5) ('\n' :: '}' :: rest))]
    simp only [resultJ, hss, List.map_nil]
  · rw [hss] at hts
    have hd : (jsonDumpsResult r).data ++ rest =
        '{' :: '\n' :: ' ' :: ' ' :: '"' :: 't' :: 'e' :: 'x' :: 't' :: '"' :: ':' ::
          ' ' :: '"' ::
          ((escapeJson r.text).data ++ ('"' ::
            (',' :: '\n' :: ' ' :: ' ' :: '"' :: 's' :: 'e' :: 'n' :: 't' :: 'e' :: 'n' ::
              'c' :: 'e' :: 's' :: '"' :: ':' :: ' ' ::
              ('[' :: '\n' ::
                ((joinSep ",\n" (sentenceJson s0 :: ss'.map sentenceJson)).data ++
                  ('\n' :: ' ' :: ' ' :: ']' :: ('\n' :: '}' :: rest))))))) := by
      simp only [jsonDumpsResult, hss, List.isEmpty_cons, List.map_cons, if_false,
        Bool.false_eq_true, String.data_append, List.append_assoc, List.cons_append]
      rfl
    simp only [List.length_cons]
    have hA := parseCore_value_sentarr g (s0 :: ss') ('\n' :: '}' :: rest)
      (by simp) hts
    simp only [List.length_cons, List.map_cons] at hA
    rw [hd, show g + (ss'.length + 1 + 9) = (g + (ss'.length + 1 + 5)) + 4 from by omega,
      parseCore_top_general (g + (ss'.length + 1 + 5)) r.text _ _ rest hA]
    simp only [resultJ, hss, List.map_cons]

lemma joinSep_sent_length (l : List String) (h : ∀ x ∈ l, 1 ≤ x.length) :
    l.length ≤ (joinSep ",\n" l).length := by
  induction l with
  | nil => simp [joinSep]
  | cons x t ih =>
    cases t with
    | nil =>
      simpa [joinSep] using h x (List.mem_cons_self _ _)
    | cons y t' =>
      have hrec := ih (fun z hz => h z (List.mem_cons_of_mem _ hz))
      have hx := h x (List.mem_cons_self _ _)
      have hsep : (",\n" : String).length = 2 := by decide
      simp only [joinSep, String.length_append, List.length_cons, hsep] at hrec ⊢
      omega

lemma sentenceJson_length_pos (s : Sentence) : 1 ≤ (sentenceJson s).length := by
  simp only [sentenceJson, String.length_append]
  have h1 : 1 ≤ ("    \x7b\n      \"text\": \"" : String).length := by decide
  omega

lemma jsonDumpsResult_length (r : TranscriptResult) :
    r.sentences.length + 8 ≤ (jsonDumpsResult r).length := by
  rcases hss : r.sentences with _ | ⟨s0, ss'⟩
  · simp only [jsonDumpsResult, hss, List.isEmpty_nil, if_true, String.length_append,
      List.length_nil]
    have h2 : 8 ≤ ("\",\n  \"sentences\": " : String).length := by decide
    omega
  · simp only [jsonDumpsResult, hss, List.isEmpty_cons, if_false, Bool.false_eq_true,
      List.map_cons, String.length_append, List.length_cons]
    have hj := joinSep_sent_length (sentenceJson s0 :: ss'.map sentenceJson) (by
      intro x hx
      rcases List.mem_cons.mp hx with rfl | hx'
      · exact sentenceJson_length_pos s0
      · obtain ⟨s', _, rfl⟩ := List.mem_map.mp hx'
        exact sentenceJson_length_pos s')
    simp only [List.length_cons, List.length_map] at hj
    have h2 : 8 ≤ ("\",\n  \"sentences\": " : String).length := by decide
    omega

/-- `json.loads` undoes `json.dumps` on every serialized transcript whose
timestamps have finite decimal representations (as every Python float
does). -/
lemma loads_jsonDumpsResult (r : TranscriptResult)
    (hts : ∀ s ∈ r.sentences, decimalRep s.start = true ∧ decimalRep s.end_ = true) :
    loads (jsonDumpsResult r) = some (resultJ r) := by
  have hlen := jsonDumpsResult_length r
  obtain ⟨g, hg⟩ : ∃ g, (jsonDumpsResult r).length + 1 = g + (r.sentences.length + 9) :=
    ⟨(jsonDumpsResult r).length + 1 - (r.sentences.length + 9), by omega⟩
  rw [loads, hg]
  have h := parseCore_top g r [] hts
  rw [List.append_nil] at h
  rw [h]
  simp [skipWs]

/-- **C7**: formatting a `TranscriptResult` as `json` yields an object with
exactly the two top-level fields `text` and `sentences`, and parsing that JSON
string back returns precisely the original `text` value together with an
equal-length, order-preserving `sentences` array whose elements carry each
source sentence's `text`, `start` and `end` — a full round trip.  The
hypothesis that every timestamp has a finite decimal representation holds of
every value a Python float can take (denominators are powers of two). -/
theorem json_round_trip (r : TranscriptResult)
    (hts : ∀ s ∈ r.sentences, decimalRep s.start = true ∧ decimalRep s.end_ = true) :
    loads (format_output r "json") =
      some (JVal.jobj [("text", JVal.jstr r.text),
        ("sentences", JVal.jarr (r.sentences.map (fun s =>
          JVal.jobj [("text", JVal.jstr s.text), ("start", JVal.jnum s.start),
            ("end", JVal.jnum s.end_)])))]) := by
  have hfmt : format_output r "json" = jsonDumpsResult r := by
    simp [format_output]
  rw [hfmt, loads_jsonDumpsResult r hts]
  rfl

theorem json_round_trip_witness :
    (∀ s ∈ (⟨"Hi", [⟨"A", 0, 3/2⟩]⟩ : TranscriptResult).sentences,
        decimalRep s.start = true ∧ decimalRep s.end_ = true) ∧
    loads (format_output (⟨"Hi", [⟨"A", 0, 3/2⟩]⟩ : TranscriptResult) "json") =
      some (JVal.jobj [("text", JVal.jstr "Hi"),
        ("sentences", JVal.jarr [JVal.jobj [("text", JVal.jstr "A"),
          ("start", JVal.jnum 0), ("end", JVal.jnum (3/2))]])]) := by
  have hyp : ∀ s ∈ (⟨"Hi", [⟨"A", 0, 3/2⟩]⟩ : TranscriptResult).sentences,
      decimalRep s.start = true ∧ decimalRep s.end_ = true := by
    intro s hs
    rcases List.mem_singleton.mp hs with rfl
    constructor
    · show decimalRep (0 : ℚ) = true
      have h0 : (0 : ℚ).den = 1 := by norm_num
      rw [decimalRep, h0]
      decide
    · show decimalRep ((3 : ℚ) / 2) = true
      have h32 : ((3 : ℚ) / 2).den = 2 := by norm_num
      rw [decimalRep, h32]
      decide
  exact ⟨hyp, json_round_trip _ hyp⟩

end Stt
